import Mathlib

/-!
Verification of the Finance_ETL change-detection upsert engine, audit ledger
and state-versioning/rollback subsystem.

The Lean definitions below are a shallow embedding of the Python sources:
  * `src/merge.py`    — `merge_upsert`, `_diff_cols`, `_row_to_json`, `_fetch_existing_bulk`
  * `src/pipeline.py` — `_compute_row_hash`, `_clean_pk_series`
  * `src/state.py`    — `_collect_head_to_target_chain`, `create_state_image`,
                        `rollback_change_event`, `rollback_to_point_in_time`

Modelling conventions:
  * Python scalar cell values (after `_row_to_json`, which maps every NaN to
    `None`) are modelled by `Value` (`null` covers both `None` and an absent
    key, since `dict.get` returns `None` for both).
  * A row / JSON document is an association list `Row`; `rget` is `dict.get`.
  * A database table keyed by primary key is `Store`, an association list from
    the text rendering of the primary key (exactly the key used by
    `_fetch_existing_bulk`, which indexes existing rows by `str(r[pk_col])`).
  * SQL `now()` timestamps are not modelled (no claim mentions them); the
    `last_updated_at` column is therefore dropped from written rows.
  * `uuid.uuid4()` is modelled by an injective fresh-identifier supply.
-/

set_option maxHeartbeats 1000000

namespace FinanceETL

/-- Scalar cell values as they appear in incoming dataframe rows after
`_row_to_json` (src/merge.py) and in rows fetched from the store.  `null`
models Python `None` (and NaN, which `_row_to_json` converts to `None`). -/
inductive Value where
  | null
  | str (s : String)
  | int (n : Int)
deriving DecidableEq, Repr

/-- Python `str(value)` on a scalar cell. -/
def Value.pyStr : Value → String
  | .null => "None"
  | .str s => s
  | .int n => toString n

/-- A row or JSON document: an association list from column name to value. -/
abbrev Row := List (String × Value)

/-- Python `dict.get(k)`: the first binding of `k`, `None` when absent. -/
def rget (r : Row) (k : String) : Value :=
  match r with
  | [] => .null
  | kv :: rest => if kv.1 == k then kv.2 else rget rest k

/-- Python `k in dict`. -/
def rmem (r : Row) (k : String) : Bool :=
  match r with
  | [] => false
  | kv :: rest => kv.1 == k || rmem rest k

/-- Column names of a row, in order (Python `dict.keys()`). -/
def rkeys (r : Row) : List String :=
  r.map (fun kv => kv.1)

/-- A target table keyed by the text rendering of the primary-key value,
exactly the map built by `_fetch_existing_bulk` (src/merge.py lines 45-65),
which keys fetched rows by `str(r[pk_col])`. -/
abbrev Store := List (String × Row)

/-- Look a row up by primary-key text (the `existing_map.get(pk_key)` of
src/merge.py line 182). -/
def sget (s : Store) (k : String) : Option Row :=
  match s with
  | [] => none
  | kv :: rest => if kv.1 == k then some kv.2 else sget rest k

/-- The batch `INSERT ... ON CONFLICT (pk) DO UPDATE SET ...` of
src/merge.py lines 162-169 applied to one parameter row: a new key inserts
the written columns, an existing key overrides exactly the written columns
and keeps every other column of the stored row (`u ++ r`, since `rget`
returns the first binding). -/
def supsert (s : Store) (k : String) (u : Row) : Store :=
  match s with
  | [] => [(k, u)]
  | (k', r) :: rest =>
      if k' == k then (k', u ++ r) :: rest else (k', r) :: supsert rest k u

/-- The fingerprint-backfill `UPDATE {table} SET ... WHERE {pk_col} = :pk` of
src/merge.py lines 210-222: overrides the listed columns of the row at key
`k` when present, and touches nothing otherwise. -/
def supdate (s : Store) (k : String) (u : Row) : Store :=
  match s with
  | [] => []
  | kv :: rest =>
      if kv.1 == k then (kv.1, u ++ kv.2) :: supdate rest k u
      else kv :: supdate rest k u

/-! ### The merge engine (src/merge.py) -/

/-- The `MergeStats` dataclass of src/merge.py lines 15-21. -/
structure MergeStats where
  inserted : Nat := 0
  updated : Nat := 0
  unchanged : Nat := 0
  conflicted : Nat := 0
  rejected : Nat := 0
deriving DecidableEq, Repr

/-- One audited row change written by `log_row_change` (src/audit.py):
a record of the `etl_row_changes` ledger table. -/
structure RowChange where
  eventId : String
  tableName : String
  pk : String
  op : String
  changedColumns : List String
  before : Option Row
  after : Row
  applied : Bool
  conflict : Bool
  conflictReason : Option String
deriving DecidableEq, Repr

/-- One entry of the conflict result set built at src/merge.py lines 258-265. -/
structure ConflictRow where
  pk : String
  conflictColumns : String
  dbBefore : Row
  patchAfter : Row
deriving DecidableEq, Repr

/-- The keyword arguments of `merge_upsert` (src/merge.py lines 73-91) that
determine classification and writing.  `hashCol` is `Optional[str]`;
`metaCols` is the value after the `meta_cols or ["source_row_num"]` default. -/
structure MergeCfg where
  eventId : String
  table : String
  pkCol : String
  compareCols : List String
  protectedCols : List String
  dryRun : Bool := false
  hashCol : Option String := some "row_hash"
  metaCols : List String := ["source_row_num"]
  backfillHash : Bool := true
deriving DecidableEq, Repr

/-- Python truthiness of the `hash_col` argument (`if hash_col ...`):
`None` and the empty string are falsy. -/
def MergeCfg.truthyHash (cfg : MergeCfg) : Option String :=
  match cfg.hashCol with
  | some h => if h = "" then none else some h
  | none => none

/-- The columns written by the batch upsert:
`cols = [pk_col] + [c for c in compare_cols if c != pk_col]`
(src/merge.py line 154). -/
def MergeCfg.writeCols (cfg : MergeCfg) : List String :=
  cfg.pkCol :: cfg.compareCols.filter (fun c => c != cfg.pkCol)

/-- The business columns used for diffing:
`[c for c in compare_cols if c != pk_col and c != hash_col and c not in set(meta_cols)]`
(src/merge.py line 172).  Note `c != hash_col` compares against the raw
optional value (`c != None` is always true). -/
def MergeCfg.businessCols (cfg : MergeCfg) : List String :=
  cfg.compareCols.filter
    (fun c => c != cfg.pkCol && some c != cfg.hashCol && !(cfg.metaCols.contains c))

/-- `_diff_cols` (src/merge.py lines 34-42): the columns of `cols` whose
values differ; a missing prior row counts every column as changed. -/
def diffCols (existing : Option Row) (incoming : Row) (cols : List String) : List String :=
  match existing with
  | none => cols
  | some e => cols.filter (fun c => rget e c != rget incoming c)

/-- The protected-column conflict scan of src/merge.py lines 232-236:
protected columns, in declaration order, that are business columns and whose
existing value differs from the incoming one.  Only runs for updates
(`existing is not None`). -/
def conflictScan (cfg : MergeCfg) (existing : Option Row) (incoming : Row) : List String :=
  match existing with
  | none => []
  | some e =>
      cfg.protectedCols.filter
        (fun c => cfg.businessCols.contains c && rget e c != rget incoming c)

/-- `inc_h = incoming.get(hash_col) if hash_col else None` (src/merge.py
line 184), and the same for the existing row. -/
def hashOf (cfg : MergeCfg) (r : Row) : Value :=
  match cfg.truthyHash with
  | some h => rget r h
  | none => .null

/-- The hash short-circuit guard of src/merge.py line 188:
`hash_col and existing is not None and inc_h is not None and ex_h is not None and inc_h == ex_h`. -/
def hashShortCircuit (cfg : MergeCfg) (existing : Option Row) (incoming : Row) : Bool :=
  match cfg.truthyHash, existing with
  | some h, some e =>
      rget incoming h != Value.null && rget e h != Value.null
        && rget incoming h == rget e h
  | _, _ => false

/-- Classification outcome of one non-rejected incoming row. -/
inductive RowClass where
  | unchanged
  | conflicted
  | inserted
  | updated
deriving DecidableEq, Repr

/-- The branch structure of the per-row loop of `merge_upsert`
(src/merge.py lines 177-301), as a pure classifier: hash short-circuit,
then empty-business-diff, then protected-column conflict, then
insert-versus-update. -/
def classifyRow (cfg : MergeCfg) (existing : Option Row) (incoming : Row) : RowClass :=
  if hashShortCircuit cfg existing incoming then .unchanged
  else if existing.isSome && (diffCols existing incoming cfg.businessCols).isEmpty then
    .unchanged
  else if !(conflictScan cfg existing incoming).isEmpty then .conflicted
  else if existing.isNone then .inserted
  else .updated

/-- Whitespace test of Python `str.strip()` (ASCII whitespace; the data
handled by the pipeline is ASCII). -/
def isSpaceChar (c : Char) : Bool :=
  c == ' ' || c == '\t' || c == '\n' || c == '\r' || c == '\x0b' || c == '\x0c'

/-- Python `str.strip()`: drop leading and trailing whitespace. -/
def pyStrip (s : String) : String :=
  String.mk (((s.data.dropWhile isSpaceChar).reverse.dropWhile isSpaceChar).reverse)

/-- Python `str.lower()` (ASCII case folding). -/
def pyLower (s : String) : String :=
  String.mk (s.data.map Char.toLower)

/-- Bad-primary-key test of src/merge.py line 132:
`pk_series.isna() | (pk_series.astype(str).str.strip() == "")`. -/
def isBadPk (v : Value) : Bool :=
  v == Value.null || pyStrip v.pyStr == ""

/-- The parameter row staged for the batch upsert (src/merge.py lines
293-294): `{c: incoming.get(c) for c in cols}` plus the change-event id.
(`last_updated_at = now()` is a timestamp and is not modelled.) -/
def writeParams (cfg : MergeCfg) (incoming : Row) : Row :=
  cfg.writeCols.map (fun c => (c, rget incoming c))
    ++ [("last_change_event_id", Value.str cfg.eventId)]

/-- Accumulator of the per-row loop of `merge_upsert`. -/
structure MergeAcc where
  stats : MergeStats
  conflicts : List ConflictRow
  toWrite : List (String × Row)
  toAudit : List RowChange
  store : Store
  ledger : List RowChange
  backfilled : Nat
deriving Repr

/-- One iteration of the per-row loop of `merge_upsert` (src/merge.py lines
177-301).  `existingMap` is the bulk-fetch snapshot taken before the loop;
`acc.store` is the live table, which only the fingerprint backfill touches
during the loop.  Progress callbacks are advisory and not modelled. -/
def mergeStep (cfg : MergeCfg) (existingMap : Store) (acc : MergeAcc) (row : Row) : MergeAcc :=
  let pkKey := (rget row cfg.pkCol).pyStr
  let incoming := row
  let existing := sget existingMap pkKey
  if hashShortCircuit cfg existing incoming then
    { acc with stats := { acc.stats with unchanged := acc.stats.unchanged + 1 } }
  else
    let changed := diffCols existing incoming cfg.businessCols
    if existing.isSome && changed.isEmpty then
      let acc := { acc with stats := { acc.stats with unchanged := acc.stats.unchanged + 1 } }
      let incH := hashOf cfg incoming
      let exH := match existing with | some e => hashOf cfg e | none => Value.null
      if cfg.backfillHash && !cfg.dryRun && cfg.truthyHash.isSome && incH != Value.null
          && (exH == Value.null || exH != incH) then
        { acc with
          store := supdate acc.store pkKey
            [(cfg.truthyHash.getD "", incH), ("last_change_event_id", Value.str cfg.eventId)],
          backfilled := acc.backfilled + 1 }
      else acc
    else
      let cc := conflictScan cfg existing incoming
      if !cc.isEmpty then
        let entry : ConflictRow :=
          { pk := pkKey
            conflictColumns := String.intercalate ", " cc
            dbBefore := existing.getD []
            patchAfter := incoming }
        let logged : List RowChange :=
          if cfg.dryRun then []
          else
            [{ eventId := cfg.eventId
               tableName := cfg.table
               pk := pkKey
               op := "UPDATE"
               changedColumns := changed
               before := existing
               after := incoming
               applied := false
               conflict := true
               conflictReason := some ("Protected field mismatch: " ++ String.intercalate ", " cc) }]
        { acc with
          stats := { acc.stats with conflicted := acc.stats.conflicted + 1 }
          conflicts := acc.conflicts ++ [entry]
          ledger := acc.ledger ++ logged }
      else
        let (op, stats') :=
          if existing.isNone then
            ("INSERT", { acc.stats with inserted := acc.stats.inserted + 1 })
          else
            ("UPDATE", { acc.stats with updated := acc.stats.updated + 1 })
        if cfg.dryRun then { acc with stats := stats' }
        else
          { acc with
            stats := stats'
            toWrite := acc.toWrite ++ [(pkKey, writeParams cfg incoming)]
            toAudit := acc.toAudit ++
              [{ eventId := cfg.eventId
                 tableName := cfg.table
                 pk := pkKey
                 op := op
                 changedColumns := changed
                 before := existing
                 after := incoming
                 applied := true
                 conflict := false
                 conflictReason := none }] }

/-- Result of one `merge_upsert` call: the returned statistics and conflict
rows, together with the post-call target-table state and the row changes
this call recorded in the ledger (in recording order). -/
structure MergeResult where
  stats : MergeStats
  conflicts : List ConflictRow
  store : Store
  ledger : List RowChange
  backfilled : Nat
deriving Repr

/-- `merge_upsert` (src/merge.py lines 73-329): reject blank primary keys,
snapshot the existing rows, run the per-row loop, then batch-write the
staged rows and record their audit entries (both skipped in dry-run mode or
when nothing was staged). -/
def mergeUpsert (cfg : MergeCfg) (store : Store) (df : List Row) : MergeResult :=
  let good := df.filter (fun r => !isBadPk (rget r cfg.pkCol))
  let rejected := df.length - good.length
  let init : MergeAcc :=
    { stats := { rejected := rejected }
      conflicts := []
      toWrite := []
      toAudit := []
      store := store
      ledger := []
      backfilled := 0 }
  let fin := good.foldl (mergeStep cfg store) init
  if !cfg.dryRun && !fin.toWrite.isEmpty then
    { stats := fin.stats
      conflicts := fin.conflicts
      store := fin.toWrite.foldl (fun s kv => supsert s kv.1 kv.2) fin.store
      ledger := fin.ledger ++ fin.toAudit
      backfilled := fin.backfilled }
  else
    { stats := fin.stats
      conflicts := fin.conflicts
      store := fin.store
      ledger := fin.ledger
      backfilled := fin.backfilled }

/-! ### Basic classification lemmas -/

theorem classifyRow_of_shortCircuit (cfg : MergeCfg) (existing : Option Row) (incoming : Row)
    (h : hashShortCircuit cfg existing incoming = true) :
    classifyRow cfg existing incoming = .unchanged := by
  simp [classifyRow, h]

theorem classifyRow_of_emptyDiff (cfg : MergeCfg) (e : Row) (incoming : Row)
    (h : diffCols (some e) incoming cfg.businessCols = []) :
    classifyRow cfg (some e) incoming = .unchanged := by
  unfold classifyRow
  split
  · rfl
  · simp [h]

theorem conflictScan_eq_nil_of_agree (cfg : MergeCfg) (e : Row) (incoming : Row)
    (h : ∀ c ∈ cfg.protectedCols, rget e c = rget incoming c) :
    conflictScan cfg (some e) incoming = [] := by
  unfold conflictScan
  refine List.filter_eq_nil_iff.mpr ?_
  intro c hc
  simp only [Bool.and_eq_true, bne_iff_ne, ne_eq, not_and]
  intro _ hne
  exact hne (h c hc)

theorem classifyRow_ne_conflicted_of_agree (cfg : MergeCfg) (e : Row) (incoming : Row)
    (h : ∀ c ∈ cfg.protectedCols, rget e c = rget incoming c) :
    classifyRow cfg (some e) incoming ≠ .conflicted := by
  unfold classifyRow
  split
  · simp
  · split
    · simp
    · rw [conflictScan_eq_nil_of_agree cfg e incoming h]
      simp

theorem classifyRow_conflicted_of_protected_diff (cfg : MergeCfg) (e : Row) (incoming : Row)
    (hsc : hashShortCircuit cfg (some e) incoming = false)
    (c : String) (hc : c ∈ cfg.protectedCols) (hcb : cfg.businessCols.contains c = true)
    (hne : rget e c ≠ rget incoming c) :
    classifyRow cfg (some e) incoming = .conflicted := by
  have hmemScan : c ∈ conflictScan cfg (some e) incoming := by
    unfold conflictScan
    refine List.mem_filter.mpr ⟨hc, ?_⟩
    simp only [Bool.and_eq_true, bne_iff_ne, ne_eq]
    exact ⟨hcb, hne⟩
  have hmemDiff : c ∈ diffCols (some e) incoming cfg.businessCols := by
    unfold diffCols
    refine List.mem_filter.mpr ⟨?_, by simp [hne]⟩
    simpa using hcb
  unfold classifyRow
  rw [hsc]
  simp only [if_false, Bool.false_eq_true]
  have hdne : (diffCols (some e) incoming cfg.businessCols).isEmpty = false := by
    cases hd : diffCols (some e) incoming cfg.businessCols with
    | nil => rw [hd] at hmemDiff; cases hmemDiff
    | cons a l => simp [List.isEmpty]
  have hsne : (conflictScan cfg (some e) incoming).isEmpty = false := by
    cases hs : conflictScan cfg (some e) incoming with
    | nil => rw [hs] at hmemScan; cases hmemScan
    | cons a l => simp [List.isEmpty]
  simp [hdne, hsne]

/-- Conflicted and short-circuited rows are never staged for the batch
write: the per-row loop stages a write only in the INSERT/UPDATE branch. -/
theorem mergeStep_toWrite_of_not_written (cfg : MergeCfg) (existingMap : Store)
    (acc : MergeAcc) (row : Row)
    (h : classifyRow cfg (sget existingMap (rget row cfg.pkCol).pyStr) row ≠ .inserted ∧
         classifyRow cfg (sget existingMap (rget row cfg.pkCol).pyStr) row ≠ .updated) :
    (mergeStep cfg existingMap acc row).toWrite = acc.toWrite := by
  by_cases h1 : hashShortCircuit cfg (sget existingMap (rget row cfg.pkCol).pyStr) row = true
  · simp [mergeStep, h1]
  · have h1' : hashShortCircuit cfg (sget existingMap (rget row cfg.pkCol).pyStr) row = false := by
      simpa using h1
    by_cases h2 : ((sget existingMap (rget row cfg.pkCol).pyStr).isSome &&
        (diffCols (sget existingMap (rget row cfg.pkCol).pyStr) row cfg.businessCols).isEmpty) = true
    · simp only [mergeStep, h1', Bool.false_eq_true, if_false, h2, if_true]
      split <;> rfl
    · have h2' : ((sget existingMap (rget row cfg.pkCol).pyStr).isSome &&
          (diffCols (sget existingMap (rget row cfg.pkCol).pyStr) row cfg.businessCols).isEmpty) = false := by
        simpa using h2
      by_cases h3 : (!(conflictScan cfg (sget existingMap (rget row cfg.pkCol).pyStr) row).isEmpty) = true
      · simp only [mergeStep, h1', Bool.false_eq_true, if_false, h2', h3, if_true]
      · exfalso
        have hclass : classifyRow cfg (sget existingMap (rget row cfg.pkCol).pyStr) row =
            (if (sget existingMap (rget row cfg.pkCol).pyStr).isNone then
              RowClass.inserted else RowClass.updated) := by
          unfold classifyRow
          rw [h1', h2', eq_false_of_ne_true h3]
          simp only [Bool.false_eq_true, if_false]
        rw [hclass] at h
        by_cases h4 : (sget existingMap (rget row cfg.pkCol).pyStr).isNone = true
        · exact h.1 (by simp [h4])
        · exact h.2 (by simp [h4])

/-- Claim C1, counterexample to the part "if any protected column differs the
row is always classified CONFLICT": with protected (and business) column `a`
differing between the stored and the incoming row, but with stored and
incoming fingerprints both present and equal, the hash short-circuit of
src/merge.py line 188 classifies the row UNCHANGED, not CONFLICT. -/
theorem merge_conflict_precision_cex :
    (let cfg : MergeCfg :=
      { eventId := "e1", table := "t", pkCol := "pk",
        compareCols := ["pk", "a", "row_hash"], protectedCols := ["a"],
        dryRun := false, hashCol := some "row_hash",
        metaCols := [], backfillHash := true }
     let ex : Row := [("pk", .int 1), ("a", .int 5), ("row_hash", .str "h")]
     let inc : Row := [("pk", .int 1), ("a", .int 6), ("row_hash", .str "h")]
     "a" ∈ cfg.protectedCols ∧ cfg.businessCols.contains "a" = true ∧
       rget ex "a" ≠ rget inc "a" ∧
       classifyRow cfg (some ex) inc = .unchanged) := by
  decide

/-- Claim C1 (amended): a row all of whose protected columns agree with the
stored row is never classified CONFLICT; a row with a differing protected
column that is among the compared business columns is classified CONFLICT
provided the fingerprint short-circuit does not fire, and rows not
classified INSERT/UPDATE — in particular conflicted rows — are excluded
from the batch-write set. -/
theorem merge_conflict_precision :
    (∀ (cfg : MergeCfg) (e incoming : Row),
        (∀ c ∈ cfg.protectedCols, rget e c = rget incoming c) →
        classifyRow cfg (some e) incoming ≠ .conflicted)
    ∧ (∀ (cfg : MergeCfg) (e incoming : Row),
        hashShortCircuit cfg (some e) incoming = false →
        (∃ c, c ∈ cfg.protectedCols ∧ cfg.businessCols.contains c = true ∧
           rget e c ≠ rget incoming c) →
        classifyRow cfg (some e) incoming = .conflicted)
    ∧ (∀ (cfg : MergeCfg) (existingMap : Store) (acc : MergeAcc) (row : Row),
        classifyRow cfg (sget existingMap (rget row cfg.pkCol).pyStr) row = .conflicted →
        (mergeStep cfg existingMap acc row).toWrite = acc.toWrite) := by
  refine ⟨classifyRow_ne_conflicted_of_agree, ?_, ?_⟩
  · rintro cfg e incoming hsc ⟨c, hc, hcb, hne⟩
    exact classifyRow_conflicted_of_protected_diff cfg e incoming hsc c hc hcb hne
  · intro cfg existingMap acc row h
    exact mergeStep_toWrite_of_not_written cfg existingMap acc row (by rw [h]; exact ⟨by simp, by simp⟩)

/-- Witness instantiating every hypothesis of `merge_conflict_precision` at
concrete inputs. -/
theorem merge_conflict_precision_witness :
    (let cfg : MergeCfg :=
      { eventId := "e1", table := "t", pkCol := "pk",
        compareCols := ["pk", "a", "b"], protectedCols := ["a"],
        dryRun := false, hashCol := none, metaCols := [], backfillHash := true }
     let ex : Row := [("pk", .int 1), ("a", .int 5), ("b", .int 7)]
     classifyRow cfg (some ex) [("pk", .int 1), ("a", .int 5), ("b", .int 8)] ≠ .conflicted
       ∧ classifyRow cfg (some ex) [("pk", .int 1), ("a", .int 6), ("b", .int 7)] = .conflicted
       ∧ (mergeStep cfg [("1", ex)]
            { stats := {}, conflicts := [], toWrite := [], toAudit := [],
              store := [], ledger := [], backfilled := 0 }
            [("pk", .int 1), ("a", .int 6), ("b", .int 7)]).toWrite = []) := by
  refine ⟨?_, ?_, ?_⟩
  · exact merge_conflict_precision.1 _ _ _ (by decide)
  · exact merge_conflict_precision.2.1 _ _ _ (by decide) ⟨"a", by decide, by decide, by decide⟩
  · exact merge_conflict_precision.2.2 _ _ _ _ (by decide)

/-- Claim C2: if the stored and incoming fingerprints are both present and
equal the row is classified UNCHANGED regardless of any business-column
values; a fingerprint mismatch alone never counts as a business change —
when the full diff over the business columns (exactly the compare columns
minus the primary key, the fingerprint column and the metadata columns) is
empty, the row is still classified UNCHANGED. -/
theorem merge_unchanged_classification :
    (∀ (cfg : MergeCfg) (existing : Option Row) (incoming : Row),
        hashShortCircuit cfg existing incoming = true →
        classifyRow cfg existing incoming = .unchanged)
    ∧ (∀ (cfg : MergeCfg) (e incoming : Row),
        diffCols (some e) incoming cfg.businessCols = [] →
        classifyRow cfg (some e) incoming = .unchanged)
    ∧ (∀ cfg : MergeCfg,
        cfg.businessCols = cfg.compareCols.filter
          (fun c => c != cfg.pkCol && some c != cfg.hashCol && !(cfg.metaCols.contains c))) :=
  ⟨classifyRow_of_shortCircuit, classifyRow_of_emptyDiff, fun _ => rfl⟩

/-- Witness instantiating every hypothesis of `merge_unchanged_classification`
at concrete inputs: the fingerprints match while a business column differs
(short-circuit), and separately the fingerprints differ while the business
columns agree (metadata/fingerprint drift). -/
theorem merge_unchanged_classification_witness :
    (let cfg : MergeCfg :=
      { eventId := "e1", table := "t", pkCol := "pk",
        compareCols := ["pk", "a", "row_hash"], protectedCols := [],
        dryRun := false, hashCol := some "row_hash",
        metaCols := [], backfillHash := true }
     classifyRow cfg (some [("pk", .int 1), ("a", .int 5), ("row_hash", .str "h")])
         [("pk", .int 1), ("a", .int 6), ("row_hash", .str "h")] = .unchanged
       ∧ classifyRow cfg (some [("pk", .int 1), ("a", .int 5), ("row_hash", .str "h1")])
           [("pk", .int 1), ("a", .int 5), ("row_hash", .str "h2")] = .unchanged) := by
  refine ⟨?_, ?_⟩
  · exact merge_unchanged_classification.1 _ _ _ (by decide)
  · exact merge_unchanged_classification.2.1 _ _ _ (by decide)

/-! ### Statistics bridge: the loop increments exactly the counter of the
row's classification -/

/-- Increment of `MergeStats` corresponding to one classified row. -/
def bumpClass (cls : RowClass) (s : MergeStats) : MergeStats :=
  match cls with
  | .unchanged => { s with unchanged := s.unchanged + 1 }
  | .conflicted => { s with conflicted := s.conflicted + 1 }
  | .inserted => { s with inserted := s.inserted + 1 }
  | .updated => { s with updated := s.updated + 1 }

theorem mergeStep_stats (cfg : MergeCfg) (existingMap : Store) (acc : MergeAcc) (row : Row) :
    (mergeStep cfg existingMap acc row).stats =
      bumpClass (classifyRow cfg (sget existingMap (rget row cfg.pkCol).pyStr) row) acc.stats := by
  by_cases h1 : hashShortCircuit cfg (sget existingMap (rget row cfg.pkCol).pyStr) row = true
  · simp [mergeStep, classifyRow, h1, bumpClass]
  · have h1' : hashShortCircuit cfg (sget existingMap (rget row cfg.pkCol).pyStr) row = false := by
      simpa using h1
    by_cases h2 : ((sget existingMap (rget row cfg.pkCol).pyStr).isSome &&
        (diffCols (sget existingMap (rget row cfg.pkCol).pyStr) row cfg.businessCols).isEmpty) = true
    · simp only [mergeStep, classifyRow, h1', Bool.false_eq_true, if_false, h2, if_true]
      split <;> rfl
    · have h2' : ((sget existingMap (rget row cfg.pkCol).pyStr).isSome &&
          (diffCols (sget existingMap (rget row cfg.pkCol).pyStr) row cfg.businessCols).isEmpty) = false := by
        simpa using h2
      by_cases h3 : (!(conflictScan cfg (sget existingMap (rget row cfg.pkCol).pyStr) row).isEmpty) = true
      · simp only [mergeStep, classifyRow, h1', h2', Bool.false_eq_true, if_false, h3, if_true]
        rfl
      · have h3' : (!(conflictScan cfg (sget existingMap (rget row cfg.pkCol).pyStr) row).isEmpty) = false := by
          simpa using h3
        cases hopt : sget existingMap (rget row cfg.pkCol).pyStr with
        | none =>
          rw [hopt] at h1' h2' h3'
          simp only [mergeStep, classifyRow, hopt, h1', h2', h3', Bool.false_eq_true, if_false,
            Option.isNone_none, if_true]
          split <;> rfl
        | some e =>
          rw [hopt] at h1' h2' h3'
          simp only [mergeStep, classifyRow, hopt, h1', h2', h3', Bool.false_eq_true, if_false,
            Option.isNone_some]
          split <;> rfl

theorem foldl_mergeStep_stats (cfg : MergeCfg) (existingMap : Store) (rows : List Row)
    (acc : MergeAcc) :
    (rows.foldl (mergeStep cfg existingMap) acc).stats =
      rows.foldl
        (fun s row => bumpClass (classifyRow cfg (sget existingMap (rget row cfg.pkCol).pyStr) row) s)
        acc.stats := by
  induction rows generalizing acc with
  | nil => rfl
  | cons r rs ih => simp only [List.foldl_cons, ih, mergeStep_stats]

/-- The statistics returned by `merge_upsert` are those accumulated by the
per-row loop over the non-rejected rows, starting from the rejected count. -/
theorem mergeUpsert_stats (cfg : MergeCfg) (store : Store) (df : List Row) :
    (mergeUpsert cfg store df).stats =
      (df.filter (fun r => !isBadPk (rget r cfg.pkCol))).foldl
        (fun s row => bumpClass (classifyRow cfg (sget store (rget row cfg.pkCol).pyStr) row) s)
        { rejected := df.length - (df.filter (fun r => !isBadPk (rget r cfg.pkCol))).length } := by
  simp only [mergeUpsert]
  split
  · exact foldl_mergeStep_stats ..
  · exact foldl_mergeStep_stats ..

/-- Sum of all five classification counters. -/
def statSum (s : MergeStats) : Nat :=
  s.inserted + s.updated + s.unchanged + s.conflicted + s.rejected

theorem statSum_bumpClass (cls : RowClass) (s : MergeStats) :
    statSum (bumpClass cls s) = statSum s + 1 := by
  cases cls <;> simp [bumpClass, statSum] <;> omega

theorem statSum_foldl_bump (cfg : MergeCfg) (store : Store) (rows : List Row) (s : MergeStats) :
    statSum (rows.foldl
      (fun s row => bumpClass (classifyRow cfg (sget store (rget row cfg.pkCol).pyStr) row) s) s) =
      statSum s + rows.length := by
  induction rows generalizing s with
  | nil => rfl
  | cons r rs ih => simp only [List.foldl_cons, ih, statSum_bumpClass, List.length_cons]; omega

/-- Claim C10: every input row is counted in exactly one category — the
returned statistics of `merge_upsert` satisfy
inserted + updated + unchanged + conflicted + rejected = number of input rows. -/
theorem merge_partition_invariant (cfg : MergeCfg) (store : Store) (df : List Row) :
    (mergeUpsert cfg store df).stats.inserted + (mergeUpsert cfg store df).stats.updated
      + (mergeUpsert cfg store df).stats.unchanged + (mergeUpsert cfg store df).stats.conflicted
      + (mergeUpsert cfg store df).stats.rejected = df.length := by
  have h := mergeUpsert_stats cfg store df
  have hlen : (df.filter (fun r => !isBadPk (rget r cfg.pkCol))).length ≤ df.length :=
    List.length_filter_le _ _
  have hsum :
      statSum (mergeUpsert cfg store df).stats =
        statSum ({ rejected := df.length - (df.filter (fun r => !isBadPk (rget r cfg.pkCol))).length } : MergeStats)
          + (df.filter (fun r => !isBadPk (rget r cfg.pkCol))).length := by
    rw [h, statSum_foldl_bump]
  simp only [statSum] at hsum
  omega

/-! ### Dry-run purity (claim C5) -/

theorem mergeStep_dryRun_frame (cfg : MergeCfg) (existingMap : Store) (acc : MergeAcc)
    (row : Row) (h : cfg.dryRun = true) :
    (mergeStep cfg existingMap acc row).store = acc.store
      ∧ (mergeStep cfg existingMap acc row).ledger = acc.ledger
      ∧ (mergeStep cfg existingMap acc row).toWrite = acc.toWrite
      ∧ (mergeStep cfg existingMap acc row).backfilled = acc.backfilled := by
  by_cases h1 : hashShortCircuit cfg (sget existingMap (rget row cfg.pkCol).pyStr) row = true
  · simp [mergeStep, h1]
  · have h1' : hashShortCircuit cfg (sget existingMap (rget row cfg.pkCol).pyStr) row = false := by
      simpa using h1
    by_cases h2 : ((sget existingMap (rget row cfg.pkCol).pyStr).isSome &&
        (diffCols (sget existingMap (rget row cfg.pkCol).pyStr) row cfg.businessCols).isEmpty) = true
    · simp [mergeStep, h1', h2, h]
    · have h2' : ((sget existingMap (rget row cfg.pkCol).pyStr).isSome &&
          (diffCols (sget existingMap (rget row cfg.pkCol).pyStr) row cfg.businessCols).isEmpty) = false := by
        simpa using h2
      by_cases h3 : (!(conflictScan cfg (sget existingMap (rget row cfg.pkCol).pyStr) row).isEmpty) = true
      · simp [mergeStep, h1', h2', h3, h]
      · have h3' : (!(conflictScan cfg (sget existingMap (rget row cfg.pkCol).pyStr) row).isEmpty) = false := by
          simpa using h3
        simp only [mergeStep, h1', h2', h3', Bool.false_eq_true, if_false, h, if_true]
        exact ⟨trivial, trivial, trivial, trivial⟩

theorem foldl_mergeStep_dryRun_frame (cfg : MergeCfg) (existingMap : Store) (rows : List Row)
    (acc : MergeAcc) (h : cfg.dryRun = true) :
    (rows.foldl (mergeStep cfg existingMap) acc).store = acc.store
      ∧ (rows.foldl (mergeStep cfg existingMap) acc).ledger = acc.ledger
      ∧ (rows.foldl (mergeStep cfg existingMap) acc).toWrite = acc.toWrite
      ∧ (rows.foldl (mergeStep cfg existingMap) acc).backfilled = acc.backfilled := by
  induction rows generalizing acc with
  | nil => exact ⟨rfl, rfl, rfl, rfl⟩
  | cons r rs ih =>
    simp only [List.foldl_cons]
    obtain ⟨h1, h2, h3, h4⟩ := ih (mergeStep cfg existingMap acc r)
    obtain ⟨g1, g2, g3, g4⟩ := mergeStep_dryRun_frame cfg existingMap acc r h
    exact ⟨h1.trans g1, h2.trans g2, h3.trans g3, h4.trans g4⟩

/-- Claim C5: with `dry_run=True`, `merge_upsert` changes neither the target
table nor the ledger, performs no fingerprint backfill, and still computes
exactly the statistics (classification and aggregation) that the
non-dry-run call would return. -/
theorem merge_dry_run_purity (cfg : MergeCfg) (store : Store) (df : List Row)
    (h : cfg.dryRun = true) :
    (mergeUpsert cfg store df).store = store
      ∧ (mergeUpsert cfg store df).ledger = []
      ∧ (mergeUpsert cfg store df).backfilled = 0
      ∧ (mergeUpsert cfg store df).stats =
          (mergeUpsert { cfg with dryRun := false } store df).stats := by
  refine ⟨?_, ?_, ?_, ?_⟩
  · unfold mergeUpsert
    simp only [h, Bool.not_true, Bool.false_and, Bool.false_eq_true, if_false]
    exact (foldl_mergeStep_dryRun_frame cfg store _ _ h).1
  · unfold mergeUpsert
    simp only [h, Bool.not_true, Bool.false_and, Bool.false_eq_true, if_false]
    exact (foldl_mergeStep_dryRun_frame cfg store _ _ h).2.1
  · unfold mergeUpsert
    simp only [h, Bool.not_true, Bool.false_and, Bool.false_eq_true, if_false]
    exact (foldl_mergeStep_dryRun_frame cfg store _ _ h).2.2.2
  · rw [mergeUpsert_stats, mergeUpsert_stats]
    rfl

/-- Witness instantiating `merge_dry_run_purity` at a concrete input on
which the non-dry-run call would write (one insert, one update, one
conflict-log candidate). -/
theorem merge_dry_run_purity_witness :
    (let cfg : MergeCfg :=
      { eventId := "e1", table := "t", pkCol := "pk", compareCols := ["pk", "a"],
        protectedCols := [], dryRun := true, hashCol := none,
        metaCols := [], backfillHash := true }
     let store : Store := [("1", [("pk", .int 1), ("a", .int 5)])]
     let df : List Row := [[("pk", .int 1), ("a", .int 6)], [("pk", .int 2), ("a", .int 7)]]
     (mergeUpsert cfg store df).store = store ∧ (mergeUpsert cfg store df).ledger = []) := by
  refine ⟨?_, ?_⟩
  · exact (merge_dry_run_purity _ _ _ (by decide)).1
  · exact (merge_dry_run_purity _ _ _ (by decide)).2.1

/-! ### Primary-key validation (claim C4) -/

/-- Per-element behaviour of `_clean_pk_series` (src/pipeline.py lines 64-71):
missing values stay missing; otherwise the value is converted to a string and
stripped, and blank or "nan"/"none" (case-insensitive) results are replaced
by missing. -/
def cleanPk (v : Value) : Value :=
  match v with
  | .null => .null
  | v =>
      let s := pyStrip v.pyStr
      if s == "" || pyLower s == "nan" || pyLower s == "none" then .null else .str s

theorem bumpClass_rejected (c : RowClass) (s : MergeStats) :
    (bumpClass c s).rejected = s.rejected := by
  cases c <;> rfl

theorem bumpClass_set_rejected (c : RowClass) (s : MergeStats) (n : Nat) :
    bumpClass c { s with rejected := n } = { bumpClass c s with rejected := n } := by
  cases c <;> rfl

theorem foldl_bump_rejected (g : Row → RowClass) (rows : List Row) (s : MergeStats) :
    (rows.foldl (fun t row => bumpClass (g row) t) s).rejected = s.rejected := by
  induction rows generalizing s with
  | nil => rfl
  | cons r rs ih => simp only [List.foldl_cons, ih, bumpClass_rejected]

theorem foldl_bump_set_rejected (g : Row → RowClass) (rows : List Row) (s : MergeStats) (n : Nat) :
    rows.foldl (fun t row => bumpClass (g row) t) { s with rejected := n } =
      { rows.foldl (fun t row => bumpClass (g row) t) s with rejected := n } := by
  induction rows generalizing s with
  | nil => rfl
  | cons r rs ih => simp only [List.foldl_cons, bumpClass_set_rejected, ih]

theorem length_filter_split (p : Row → Bool) (l : List Row) :
    (l.filter p).length + (l.filter (fun a => !p a)).length = l.length := by
  induction l with
  | nil => rfl
  | cons a l ih =>
    by_cases h : p a = true
    · simp [List.filter_cons, h, ih, Nat.succ_add]
    · have h' : p a = false := by simpa using h
      simp [List.filter_cons, h', ih]
      omega

/-- The rejected statistic counts exactly the bad-primary-key rows. -/
theorem mergeUpsert_rejected (cfg : MergeCfg) (store : Store) (df : List Row) :
    (mergeUpsert cfg store df).stats.rejected =
      (df.filter (fun r => isBadPk (rget r cfg.pkCol))).length := by
  rw [mergeUpsert_stats, foldl_bump_rejected]
  have := length_filter_split (fun r => isBadPk (rget r cfg.pkCol)) df
  simp only at this ⊢
  omega

/-- The per-row loop treats the statistics accumulator opaquely: starting the
loop from a different statistics value only shifts the final statistics, and
changes nothing else. -/
theorem mergeStep_stats_irrel (cfg : MergeCfg) (existingMap : Store) (acc : MergeAcc)
    (s : MergeStats) (row : Row) :
    mergeStep cfg existingMap { acc with stats := s } row =
      { mergeStep cfg existingMap acc row with
          stats := bumpClass (classifyRow cfg (sget existingMap (rget row cfg.pkCol).pyStr) row) s } := by
  by_cases h1 : hashShortCircuit cfg (sget existingMap (rget row cfg.pkCol).pyStr) row = true
  · simp [mergeStep, classifyRow, h1, bumpClass]
  · have h1' : hashShortCircuit cfg (sget existingMap (rget row cfg.pkCol).pyStr) row = false := by
      simpa using h1
    by_cases h2 : ((sget existingMap (rget row cfg.pkCol).pyStr).isSome &&
        (diffCols (sget existingMap (rget row cfg.pkCol).pyStr) row cfg.businessCols).isEmpty) = true
    · simp only [mergeStep, classifyRow, h1', Bool.false_eq_true, if_false, h2, if_true]
      split <;> rfl
    · have h2' : ((sget existingMap (rget row cfg.pkCol).pyStr).isSome &&
          (diffCols (sget existingMap (rget row cfg.pkCol).pyStr) row cfg.businessCols).isEmpty) = false := by
        simpa using h2
      by_cases h3 : (!(conflictScan cfg (sget existingMap (rget row cfg.pkCol).pyStr) row).isEmpty) = true
      · simp only [mergeStep, classifyRow, h1', h2', Bool.false_eq_true, if_false, h3, if_true]
        rfl
      · have h3' : (!(conflictScan cfg (sget existingMap (rget row cfg.pkCol).pyStr) row).isEmpty) = false := by
          simpa using h3
        cases hopt : sget existingMap (rget row cfg.pkCol).pyStr with
        | none =>
          rw [hopt] at h1' h2' h3'
          simp only [mergeStep, classifyRow, hopt, h1', h2', h3', Bool.false_eq_true, if_false,
            Option.isNone_none, if_true]
          split <;> rfl
        | some e =>
          rw [hopt] at h1' h2' h3'
          simp only [mergeStep, classifyRow, hopt, h1', h2', h3', Bool.false_eq_true, if_false,
            Option.isNone_some]
          split <;> rfl

theorem foldl_mergeStep_stats_irrel (cfg : MergeCfg) (existingMap : Store) (rows : List Row)
    (acc : MergeAcc) (s : MergeStats) :
    rows.foldl (mergeStep cfg existingMap) { acc with stats := s } =
      { rows.foldl (mergeStep cfg existingMap) acc with
          stats := rows.foldl
            (fun t row => bumpClass (classifyRow cfg (sget existingMap (rget row cfg.pkCol).pyStr) row) t)
            s } := by
  induction rows generalizing acc s with
  | nil => rfl
  | cons r rs ih =>
    simp only [List.foldl_cons, mergeStep_stats_irrel]
    rw [ih (mergeStep cfg existingMap acc r)]

theorem filter_good_self (cfg : MergeCfg) (df : List Row) :
    (df.filter (fun r => !isBadPk (rget r cfg.pkCol))).filter
        (fun r => !isBadPk (rget r cfg.pkCol)) =
      df.filter (fun r => !isBadPk (rget r cfg.pkCol)) :=
  List.filter_eq_self.mpr (fun _a ha => (List.mem_filter.mp ha).2)

theorem badlen_eq (cfg : MergeCfg) (df : List Row) :
    df.length - (df.filter (fun r => !isBadPk (rget r cfg.pkCol))).length =
      (df.filter (fun r => isBadPk (rget r cfg.pkCol))).length := by
  have := length_filter_split (fun r => isBadPk (rget r cfg.pkCol)) df
  omega

/-- Outside the rejected counter, running `merge_upsert` on the raw frame is
the same as running it on the frame with the bad-primary-key rows removed:
rejected rows take part in no classification, no write and no ledger entry. -/
theorem mergeUpsert_good_frame (cfg : MergeCfg) (store : Store) (df : List Row) :
    (mergeUpsert cfg store df).store =
        (mergeUpsert cfg store (df.filter (fun r => !isBadPk (rget r cfg.pkCol)))).store
      ∧ (mergeUpsert cfg store df).ledger =
          (mergeUpsert cfg store (df.filter (fun r => !isBadPk (rget r cfg.pkCol)))).ledger
      ∧ (mergeUpsert cfg store df).conflicts =
          (mergeUpsert cfg store (df.filter (fun r => !isBadPk (rget r cfg.pkCol)))).conflicts := by
  have hfin :
      (df.filter (fun r => !isBadPk (rget r cfg.pkCol))).foldl (mergeStep cfg store)
        { stats := { rejected := df.length - (df.filter (fun r => !isBadPk (rget r cfg.pkCol))).length },
          conflicts := [], toWrite := [], toAudit := [], store := store, ledger := [], backfilled := 0 } =
      { (df.filter (fun r => !isBadPk (rget r cfg.pkCol))).foldl (mergeStep cfg store)
          { stats := { rejected := (df.filter (fun r => !isBadPk (rget r cfg.pkCol))).length
                - (df.filter (fun r => !isBadPk (rget r cfg.pkCol))).length },
            conflicts := [], toWrite := [], toAudit := [], store := store, ledger := [], backfilled := 0 } with
        stats := (df.filter (fun r => !isBadPk (rget r cfg.pkCol))).foldl
          (fun t row => bumpClass (classifyRow cfg (sget store (rget row cfg.pkCol).pyStr) row) t)
          { rejected := df.length - (df.filter (fun r => !isBadPk (rget r cfg.pkCol))).length } } :=
    foldl_mergeStep_stats_irrel cfg store (df.filter (fun r => !isBadPk (rget r cfg.pkCol)))
      { stats := { rejected := (df.filter (fun r => !isBadPk (rget r cfg.pkCol))).length
            - (df.filter (fun r => !isBadPk (rget r cfg.pkCol))).length },
        conflicts := [], toWrite := [], toAudit := [], store := store, ledger := [], backfilled := 0 }
      { rejected := df.length - (df.filter (fun r => !isBadPk (rget r cfg.pkCol))).length }
  refine ⟨?_, ?_, ?_⟩ <;>
    · simp only [mergeUpsert, filter_good_self, hfin]
      split <;> rfl

/-- The statistics of a raw-frame run are those of the filtered run with the
rejected counter set to the number of removed rows. -/
theorem mergeUpsert_good_stats (cfg : MergeCfg) (store : Store) (df : List Row) :
    (mergeUpsert cfg store df).stats =
      { (mergeUpsert cfg store (df.filter (fun r => !isBadPk (rget r cfg.pkCol)))).stats with
          rejected := (df.filter (fun r => isBadPk (rget r cfg.pkCol))).length } := by
  have h1 := mergeUpsert_stats cfg store df
  have h2 := mergeUpsert_stats cfg store (df.filter (fun r => !isBadPk (rget r cfg.pkCol)))
  rw [filter_good_self] at h2
  have e1 :
      ((df.filter (fun r => !isBadPk (rget r cfg.pkCol))).foldl
          (fun t row => bumpClass (classifyRow cfg (sget store (rget row cfg.pkCol).pyStr) row) t)
          { rejected := df.length - (df.filter (fun r => !isBadPk (rget r cfg.pkCol))).length } : MergeStats) =
        { (df.filter (fun r => !isBadPk (rget r cfg.pkCol))).foldl
            (fun t row => bumpClass (classifyRow cfg (sget store (rget row cfg.pkCol).pyStr) row) t)
            ({} : MergeStats) with
          rejected := df.length - (df.filter (fun r => !isBadPk (rget r cfg.pkCol))).length } :=
    foldl_bump_set_rejected _ _ {} _
  have e2 :
      ((df.filter (fun r => !isBadPk (rget r cfg.pkCol))).foldl
          (fun t row => bumpClass (classifyRow cfg (sget store (rget row cfg.pkCol).pyStr) row) t)
          { rejected := (df.filter (fun r => !isBadPk (rget r cfg.pkCol))).length
            - (df.filter (fun r => !isBadPk (rget r cfg.pkCol))).length } : MergeStats) =
        { (df.filter (fun r => !isBadPk (rget r cfg.pkCol))).foldl
            (fun t row => bumpClass (classifyRow cfg (sget store (rget row cfg.pkCol).pyStr) row) t)
            ({} : MergeStats) with
          rejected := (df.filter (fun r => !isBadPk (rget r cfg.pkCol))).length
            - (df.filter (fun r => !isBadPk (rget r cfg.pkCol))).length } :=
    foldl_bump_set_rejected _ _ {} _
  rw [h1, h2, e1, e2, badlen_eq]

/-- Claim C4, counterexample to the part "rows whose primary-key value is a
'nan'-like string are rejected": a literal string key "nan" passes the
bad-primary-key mask of src/merge.py line 132 (it is neither missing nor
blank) and the row is classified INSERT with zero rejected rows. -/
theorem merge_pk_validation_cex :
    (let cfg : MergeCfg :=
      { eventId := "e1", table := "t", pkCol := "pk", compareCols := ["pk", "a"],
        protectedCols := [], dryRun := false, hashCol := none,
        metaCols := [], backfillHash := true }
     let df : List Row := [[("pk", .str "nan"), ("a", .int 1)]]
     isBadPk (Value.str "nan") = false
       ∧ (mergeUpsert cfg [] df).stats.rejected = 0
       ∧ (mergeUpsert cfg [] df).stats.inserted = 1) := by
  decide

/-- Claim C4 (amended): `merge_upsert` rejects exactly the rows whose
primary key is missing or blank after string conversion — they are counted
in the rejected statistic and take part in no classification, no write and
no ledger entry — and never raises for such a key; "nan"-like string keys
are not rejected by `merge_upsert` itself but are normalized to missing
upstream by `_clean_pk_series` (src/pipeline.py), whose per-element
behaviour maps exactly the missing, blank and "nan"/"none" (case-insensitive)
keys to missing. -/
theorem merge_pk_validation :
    (∀ v : Value, isBadPk v = true ↔ (v = .null ∨ pyStrip v.pyStr = ""))
    ∧ (∀ (cfg : MergeCfg) (store : Store) (df : List Row),
        (mergeUpsert cfg store df).stats.rejected =
          (df.filter (fun r => isBadPk (rget r cfg.pkCol))).length)
    ∧ (∀ (cfg : MergeCfg) (store : Store) (df : List Row),
        (mergeUpsert cfg store df).store =
            (mergeUpsert cfg store (df.filter (fun r => !isBadPk (rget r cfg.pkCol)))).store
          ∧ (mergeUpsert cfg store df).ledger =
              (mergeUpsert cfg store (df.filter (fun r => !isBadPk (rget r cfg.pkCol)))).ledger
          ∧ (mergeUpsert cfg store df).conflicts =
              (mergeUpsert cfg store (df.filter (fun r => !isBadPk (rget r cfg.pkCol)))).conflicts)
    ∧ (∀ v : Value, cleanPk v = .null ↔
        (v = .null ∨ pyStrip v.pyStr = "" ∨ pyLower (pyStrip v.pyStr) = "nan"
          ∨ pyLower (pyStrip v.pyStr) = "none")) := by
  refine ⟨?_, mergeUpsert_rejected, mergeUpsert_good_frame, ?_⟩
  · intro v
    simp only [isBadPk, Bool.or_eq_true, beq_iff_eq]
  · intro v
    cases v with
    | null => simp [cleanPk]
    | str s =>
      simp only [cleanPk, Value.pyStr]
      constructor
      · intro h
        split at h
        · rename_i hc
          simp only [Bool.or_eq_true, beq_iff_eq] at hc
          rcases hc with (hc | hc) | hc
          · exact Or.inr (Or.inl hc)
          · exact Or.inr (Or.inr (Or.inl hc))
          · exact Or.inr (Or.inr (Or.inr hc))
        · cases h
      · intro h
        rcases h with h | h | h | h
        · cases h
        · simp [h]
        · simp [h]
        · simp [h]
    | int n =>
      simp only [cleanPk, Value.pyStr]
      constructor
      · intro h
        split at h
        · rename_i hc
          simp only [Bool.or_eq_true, beq_iff_eq] at hc
          rcases hc with (hc | hc) | hc
          · exact Or.inr (Or.inl hc)
          · exact Or.inr (Or.inr (Or.inl hc))
          · exact Or.inr (Or.inr (Or.inr hc))
        · cases h
      · intro h
        rcases h with h | h | h | h
        · cases h
        · simp [h]
        · simp [h]
        · simp [h]

/-! ### Association-list lemmas for stores and rows -/

theorem sget_supsert_self (s : Store) (k : String) (u : Row) :
    sget (supsert s k u) k =
      some (match sget s k with | some r => u ++ r | none => u) := by
  induction s with
  | nil => simp [supsert, sget]
  | cons kv rest ih =>
    by_cases hk : (kv.1 == k) = true
    · simp [supsert, sget, hk]
    · have hk' : (kv.1 == k) = false := by simpa using hk
      simp [supsert, sget, hk', ih]

theorem sget_supsert_ne (s : Store) (k k' : String) (u : Row) (h : k' ≠ k) :
    sget (supsert s k u) k' = sget s k' := by
  have hkk' : (k == k') = false := by
    simp only [beq_eq_false_iff_ne, ne_eq]
    exact fun e => h e.symm
  induction s with
  | nil => simp [supsert, sget, hkk']
  | cons kv rest ih =>
    by_cases hk : (kv.1 == k) = true
    · have hkk : kv.1 = k := by simpa using hk
      have hk'f : (kv.1 == k') = false := by rw [hkk]; exact hkk'
      simp [supsert, sget, hk, hk'f]
    · have hkf : (kv.1 == k) = false := by simpa using hk
      by_cases hk' : (kv.1 == k') = true
      · simp [supsert, sget, hkf, hk']
      · have hk'f : (kv.1 == k') = false := by simpa using hk'
        simp [supsert, sget, hkf, hk'f, ih]

theorem sget_supdate_self (s : Store) (k : String) (u : Row) :
    sget (supdate s k u) k = (sget s k).map (fun r => u ++ r) := by
  induction s with
  | nil => simp [supdate, sget]
  | cons kv rest ih =>
    by_cases hk : (kv.1 == k) = true
    · simp [supdate, sget, hk]
    · have hkf : (kv.1 == k) = false := by simpa using hk
      simp [supdate, sget, hkf, ih]

theorem sget_supdate_ne (s : Store) (k k' : String) (u : Row) (h : k' ≠ k) :
    sget (supdate s k u) k' = sget s k' := by
  induction s with
  | nil => simp [supdate, sget]
  | cons kv rest ih =>
    by_cases hk : (kv.1 == k) = true
    · have hkk : kv.1 = k := by simpa using hk
      have hk'f : (kv.1 == k') = false := by
        simp only [beq_eq_false_iff_ne, ne_eq]
        intro e
        exact h (e.symm.trans hkk)
      simp [supdate, sget, hk, hk'f, ih]
    · have hkf : (kv.1 == k) = false := by simpa using hk
      by_cases hk' : (kv.1 == k') = true
      · simp [supdate, sget, hkf, hk']
      · have hk'f : (kv.1 == k') = false := by simpa using hk'
        simp [supdate, sget, hkf, hk'f, ih]

theorem rget_append (u v : Row) (k : String) :
    rget (u ++ v) k = if rmem u k then rget u k else rget v k := by
  induction u with
  | nil => simp [rget, rmem]
  | cons kv rest ih =>
    by_cases hk : (kv.1 == k) = true
    · simp [rget, rmem, hk]
    · have hkf : (kv.1 == k) = false := by simpa using hk
      simp [rget, rmem, hkf, ih]

theorem rget_mapCols (r : Row) (cols : List String) (tail : Row) (c : String) (hc : c ∈ cols) :
    rget ((cols.map (fun c => (c, rget r c))) ++ tail) c = rget r c := by
  induction cols with
  | nil => cases hc
  | cons c0 cs ih =>
    by_cases h : (c0 == c) = true
    · have he : c0 = c := by simpa using h
      simp [rget, h, he]
    · have hf : (c0 == c) = false := by simpa using h
      have hc' : c ∈ cs := by
        cases hc with
        | head => simp at hf
        | tail _ hmem => exact hmem
      simp only [List.map_cons, List.cons_append, rget, hf, Bool.false_eq_true, if_false]
      exact ih hc'

/-- Looking a written column up in the staged parameter row returns the
incoming value. -/
theorem rget_writeParams_of_mem (cfg : MergeCfg) (r : Row) (c : String)
    (hc : c ∈ cfg.writeCols) : rget (writeParams cfg r) c = rget r c :=
  rget_mapCols r cfg.writeCols _ c hc

/-! ### Effect of the per-row loop on the live store and the staged writes -/

/-- The stored-row fingerprint `ex_h` (src/merge.py line 185). -/
def exHashOf (cfg : MergeCfg) (existing : Option Row) : Value :=
  match existing with
  | some e => hashOf cfg e
  | none => Value.null

/-- Guard under which the per-row loop performs the opportunistic
fingerprint backfill (src/merge.py lines 198-225): the row fell through the
hash short-circuit into the empty-business-diff branch, and the
backfill condition of lines 202-208 holds. -/
def backfillCond (cfg : MergeCfg) (existing : Option Row) (incoming : Row) : Bool :=
  !hashShortCircuit cfg existing incoming
    && (existing.isSome && (diffCols existing incoming cfg.businessCols).isEmpty)
    && (cfg.backfillHash && !cfg.dryRun && cfg.truthyHash.isSome
        && hashOf cfg incoming != Value.null
        && (exHashOf cfg existing == Value.null
              || exHashOf cfg existing != hashOf cfg incoming))

/-- Columns written by the fingerprint backfill `UPDATE`. -/
def backfillRow (cfg : MergeCfg) (incoming : Row) : Row :=
  [(cfg.truthyHash.getD "", hashOf cfg incoming),
   ("last_change_event_id", Value.str cfg.eventId)]

/-- Guard under which the per-row loop stages the row for the batch write
(src/merge.py lines 287-298): an INSERT or UPDATE classification outside
dry-run mode. -/
def stageCond (cfg : MergeCfg) (existing : Option Row) (incoming : Row) : Bool :=
  !cfg.dryRun && (classifyRow cfg existing incoming == RowClass.inserted
    || classifyRow cfg existing incoming == RowClass.updated)

theorem mergeStep_store (cfg : MergeCfg) (existingMap : Store) (acc : MergeAcc) (row : Row) :
    (mergeStep cfg existingMap acc row).store =
      if backfillCond cfg (sget existingMap (rget row cfg.pkCol).pyStr) row then
        supdate acc.store (rget row cfg.pkCol).pyStr (backfillRow cfg row)
      else acc.store := by
  by_cases h1 : hashShortCircuit cfg (sget existingMap (rget row cfg.pkCol).pyStr) row = true
  · simp [mergeStep, backfillCond, h1]
  · have h1' : hashShortCircuit cfg (sget existingMap (rget row cfg.pkCol).pyStr) row = false := by
      simpa using h1
    by_cases h2 : ((sget existingMap (rget row cfg.pkCol).pyStr).isSome &&
        (diffCols (sget existingMap (rget row cfg.pkCol).pyStr) row cfg.businessCols).isEmpty) = true
    · simp only [mergeStep, h1', Bool.false_eq_true, if_false, h2, if_true]
      have hc : backfillCond cfg (sget existingMap (rget row cfg.pkCol).pyStr) row =
          (cfg.backfillHash && !cfg.dryRun && cfg.truthyHash.isSome
            && hashOf cfg row != Value.null
            && (exHashOf cfg (sget existingMap (rget row cfg.pkCol).pyStr) == Value.null
                  || exHashOf cfg (sget existingMap (rget row cfg.pkCol).pyStr) != hashOf cfg row)) := by
        simp [backfillCond, h1', h2]
      rw [hc]
      simp only [exHashOf, backfillRow]
      split <;> rfl
    · have h2' : ((sget existingMap (rget row cfg.pkCol).pyStr).isSome &&
          (diffCols (sget existingMap (rget row cfg.pkCol).pyStr) row cfg.businessCols).isEmpty) = false := by
        simpa using h2
      have hc : backfillCond cfg (sget existingMap (rget row cfg.pkCol).pyStr) row = false := by
        simp [backfillCond, h2']
      rw [hc]
      simp only [Bool.false_eq_true, if_false, mergeStep, h1', h2']
      repeat' split
      all_goals rfl

theorem mergeStep_toWrite (cfg : MergeCfg) (existingMap : Store) (acc : MergeAcc) (row : Row) :
    (mergeStep cfg existingMap acc row).toWrite =
      acc.toWrite ++
        (if stageCond cfg (sget existingMap (rget row cfg.pkCol).pyStr) row then
          [((rget row cfg.pkCol).pyStr, writeParams cfg row)] else []) := by
  by_cases h1 : hashShortCircuit cfg (sget existingMap (rget row cfg.pkCol).pyStr) row = true
  · simp [mergeStep, stageCond, classifyRow, h1]
  · have h1' : hashShortCircuit cfg (sget existingMap (rget row cfg.pkCol).pyStr) row = false := by
      simpa using h1
    by_cases h2 : ((sget existingMap (rget row cfg.pkCol).pyStr).isSome &&
        (diffCols (sget existingMap (rget row cfg.pkCol).pyStr) row cfg.businessCols).isEmpty) = true
    · have hst : stageCond cfg (sget existingMap (rget row cfg.pkCol).pyStr) row = false := by
        simp [stageCond, classifyRow, h1', h2]
      simp only [mergeStep, h1', Bool.false_eq_true, if_false, h2, if_true, hst, List.append_nil]
      split <;> rfl
    · have h2' : ((sget existingMap (rget row cfg.pkCol).pyStr).isSome &&
          (diffCols (sget existingMap (rget row cfg.pkCol).pyStr) row cfg.businessCols).isEmpty) = false := by
        simpa using h2
      by_cases h3 : (!(conflictScan cfg (sget existingMap (rget row cfg.pkCol).pyStr) row).isEmpty) = true
      · have hst : stageCond cfg (sget existingMap (rget row cfg.pkCol).pyStr) row = false := by
          simp [stageCond, classifyRow, h1', h2', h3]
        simp [mergeStep, h1', h2', h3, hst]
      · have h3' : (!(conflictScan cfg (sget existingMap (rget row cfg.pkCol).pyStr) row).isEmpty) = false := by
          simpa using h3
        have hcls : (classifyRow cfg (sget existingMap (rget row cfg.pkCol).pyStr) row == RowClass.inserted
            || classifyRow cfg (sget existingMap (rget row cfg.pkCol).pyStr) row == RowClass.updated) = true := by
          unfold classifyRow
          rw [h1', h2', h3']
          simp only [Bool.false_eq_true, if_false]
          split <;> rfl
        by_cases hd : cfg.dryRun = true
        · have hst : stageCond cfg (sget existingMap (rget row cfg.pkCol).pyStr) row = false := by
            simp [stageCond, hd]
          simp only [mergeStep, h1', h2', h3', Bool.false_eq_true, if_false, hd, if_true, hst,
            List.append_nil]
        · have hd' : cfg.dryRun = false := by simpa using hd
          have hst : stageCond cfg (sget existingMap (rget row cfg.pkCol).pyStr) row = true := by
            simp only [stageCond, hd', Bool.not_false, Bool.true_and]
            exact hcls
          simp only [mergeStep, h1', h2', h3', Bool.false_eq_true, if_false, hd', hst, if_true]

/-- The primary-key text of a dataframe row (`pk_key = str(row[pk_col])`,
src/merge.py lines 178-179). -/
def pkKeyOf (cfg : MergeCfg) (r : Row) : String :=
  (rget r cfg.pkCol).pyStr

/-- The rows staged for the batch write by the per-row loop, in row order. -/
def stagedOf (cfg : MergeCfg) (existingMap : Store) (rows : List Row) : List (String × Row) :=
  rows.filterMap (fun r =>
    if stageCond cfg (sget existingMap (pkKeyOf cfg r)) r then
      some (pkKeyOf cfg r, writeParams cfg r)
    else none)

theorem foldl_mergeStep_toWrite (cfg : MergeCfg) (existingMap : Store) (rows : List Row)
    (acc : MergeAcc) :
    (rows.foldl (mergeStep cfg existingMap) acc).toWrite =
      acc.toWrite ++ stagedOf cfg existingMap rows := by
  induction rows generalizing acc with
  | nil => simp [stagedOf]
  | cons r rs ih =>
    simp only [List.foldl_cons, ih, stagedOf, List.filterMap_cons]
    rw [mergeStep_toWrite]
    by_cases hst : stageCond cfg (sget existingMap (pkKeyOf cfg r)) r = true
    · simp only [pkKeyOf] at hst
      simp [hst, stagedOf, pkKeyOf]
    · have hst' : stageCond cfg (sget existingMap (pkKeyOf cfg r)) r = false := by simpa using hst
      simp only [pkKeyOf] at hst'
      simp [hst', stagedOf, pkKeyOf]

theorem foldl_mergeStep_store_untouched (cfg : MergeCfg) (existingMap : Store) (rows : List Row)
    (acc : MergeAcc) (k : String) (h : ∀ r ∈ rows, pkKeyOf cfg r ≠ k) :
    sget (rows.foldl (mergeStep cfg existingMap) acc).store k = sget acc.store k := by
  induction rows generalizing acc with
  | nil => rfl
  | cons r rs ih =>
    simp only [List.foldl_cons]
    rw [ih _ (fun r' hr' => h r' (List.mem_cons_of_mem _ hr'))]
    rw [mergeStep_store]
    split
    · exact sget_supdate_ne _ _ _ _ (fun e => h r (List.mem_cons_self _ _) e.symm)
    · rfl

theorem foldl_mergeStep_store_at (cfg : MergeCfg) (existingMap : Store) (rows : List Row)
    (acc : MergeAcc) (r : Row) (hr : r ∈ rows)
    (hnd : (rows.map (pkKeyOf cfg)).Nodup) :
    sget (rows.foldl (mergeStep cfg existingMap) acc).store (pkKeyOf cfg r) =
      if backfillCond cfg (sget existingMap (pkKeyOf cfg r)) r then
        (sget acc.store (pkKeyOf cfg r)).map (fun er => backfillRow cfg r ++ er)
      else sget acc.store (pkKeyOf cfg r) := by
  induction rows generalizing acc with
  | nil => cases hr
  | cons r0 rs ih =>
    simp only [List.map_cons, List.nodup_cons] at hnd
    cases hr with
    | head =>
      simp only [List.foldl_cons]
      rw [foldl_mergeStep_store_untouched cfg existingMap rs _ (pkKeyOf cfg r)
        (fun r' hr' e => hnd.1 (e ▸ List.mem_map_of_mem (pkKeyOf cfg) hr'))]
      rw [mergeStep_store]
      simp only [pkKeyOf]
      split
      · exact sget_supdate_self _ _ _
      · rfl
    | tail _ hmem =>
      simp only [List.foldl_cons]
      rw [ih _ hmem hnd.2]
      have hne : pkKeyOf cfg r ≠ pkKeyOf cfg r0 := by
        intro e
        exact hnd.1 (e ▸ List.mem_map_of_mem (pkKeyOf cfg) hmem)
      have hstore : sget (mergeStep cfg existingMap acc r0).store (pkKeyOf cfg r) =
          sget acc.store (pkKeyOf cfg r) := by
        rw [mergeStep_store]
        split
        · exact sget_supdate_ne _ _ _ _ hne
        · rfl
      rw [hstore]

/-- The batch write of src/merge.py lines 304-307: the staged parameter rows
are upserted in order (chunking does not change the sequential effect). -/
def batchWrite (s : Store) (ws : List (String × Row)) : Store :=
  match ws with
  | [] => s
  | w :: rest => batchWrite (supsert s w.1 w.2) rest

theorem batchWrite_eq_foldl (s : Store) (ws : List (String × Row)) :
    batchWrite s ws = ws.foldl (fun s kv => supsert s kv.1 kv.2) s := by
  induction ws generalizing s with
  | nil => rfl
  | cons w rest ih => simp only [batchWrite, List.foldl_cons, ih]

theorem batchWrite_untouched (s : Store) (ws : List (String × Row)) (k : String)
    (h : ∀ w ∈ ws, w.1 ≠ k) :
    sget (batchWrite s ws) k = sget s k := by
  induction ws generalizing s with
  | nil => rfl
  | cons w ws ih =>
    simp only [batchWrite]
    rw [ih _ (fun w' hw' => h w' (List.mem_cons_of_mem _ hw'))]
    exact sget_supsert_ne _ _ _ _ (fun e => h w (List.mem_cons_self _ _) e.symm)

theorem stagedOf_keys_sub (cfg : MergeCfg) (existingMap : Store) (rows : List Row) :
    ∀ w ∈ stagedOf cfg existingMap rows, ∃ r ∈ rows, w.1 = pkKeyOf cfg r := by
  intro w hw
  simp only [stagedOf, List.mem_filterMap] at hw
  obtain ⟨r, hr, he⟩ := hw
  split at he
  · cases he
    exact ⟨r, hr, rfl⟩
  · cases he

theorem stagedOf_cons_true (cfg : MergeCfg) (existingMap : Store) (r0 : Row) (rs : List Row)
    (h : stageCond cfg (sget existingMap (pkKeyOf cfg r0)) r0 = true) :
    stagedOf cfg existingMap (r0 :: rs) =
      (pkKeyOf cfg r0, writeParams cfg r0) :: stagedOf cfg existingMap rs := by
  simp [stagedOf, List.filterMap_cons, h]

theorem stagedOf_cons_false (cfg : MergeCfg) (existingMap : Store) (r0 : Row) (rs : List Row)
    (h : stageCond cfg (sget existingMap (pkKeyOf cfg r0)) r0 = false) :
    stagedOf cfg existingMap (r0 :: rs) = stagedOf cfg existingMap rs := by
  simp [stagedOf, List.filterMap_cons, h]

/-- Lookup in the batch-written store at the key of a processed row. -/
theorem batchWrite_at (cfg : MergeCfg) (existingMap : Store) (rows : List Row) (s : Store)
    (r : Row) (hr : r ∈ rows) (hnd : (rows.map (pkKeyOf cfg)).Nodup) :
    sget (batchWrite s (stagedOf cfg existingMap rows)) (pkKeyOf cfg r) =
      if stageCond cfg (sget existingMap (pkKeyOf cfg r)) r then
        some (match sget s (pkKeyOf cfg r) with
          | some r0 => writeParams cfg r ++ r0
          | none => writeParams cfg r)
      else sget s (pkKeyOf cfg r) := by
  induction rows generalizing s with
  | nil => cases hr
  | cons r0 rs ih =>
    simp only [List.map_cons, List.nodup_cons] at hnd
    have hsub : ∀ w ∈ stagedOf cfg existingMap rs, w.1 ≠ pkKeyOf cfg r0 := by
      intro w hw e
      obtain ⟨r', hr', he⟩ := stagedOf_keys_sub cfg existingMap rs w hw
      exact hnd.1 ((he.symm.trans e) ▸ List.mem_map_of_mem (pkKeyOf cfg) hr')
    cases hr with
    | head =>
      by_cases hst : stageCond cfg (sget existingMap (pkKeyOf cfg r)) r = true
      · rw [stagedOf_cons_true cfg existingMap r rs hst, if_pos hst]
        simp only [batchWrite]
        rw [batchWrite_untouched _ _ _ hsub]
        exact sget_supsert_self _ _ _
      · have hst' : stageCond cfg (sget existingMap (pkKeyOf cfg r)) r = false := by
          simpa using hst
        rw [stagedOf_cons_false cfg existingMap r rs hst', hst', if_neg (by simp)]
        exact batchWrite_untouched _ _ _ hsub
    | tail _ hmem =>
      have hne : pkKeyOf cfg r ≠ pkKeyOf cfg r0 := by
        intro e
        exact hnd.1 (e ▸ List.mem_map_of_mem (pkKeyOf cfg) hmem)
      by_cases hst0 : stageCond cfg (sget existingMap (pkKeyOf cfg r0)) r0 = true
      · rw [stagedOf_cons_true cfg existingMap r0 rs hst0]
        simp only [batchWrite]
        rw [ih _ hmem hnd.2, sget_supsert_ne _ _ _ _ hne]
      · have hst0' : stageCond cfg (sget existingMap (pkKeyOf cfg r0)) r0 = false := by
          simpa using hst0
        rw [stagedOf_cons_false cfg existingMap r0 rs hst0']
        exact ih _ hmem hnd.2

/-- The loop accumulator `merge_upsert` starts from: all counters zero except
the rejected count, empty staging lists, and the live store. -/
def mergeInit (S : Store) (n : Nat) : MergeAcc :=
  { stats := { rejected := n }, conflicts := [], toWrite := [], toAudit := [],
    store := S, ledger := [], backfilled := 0 }

theorem mergeInit_toWrite (S : Store) (n : Nat) : (mergeInit S n).toWrite = [] := rfl

theorem sget_mergeInit (S : Store) (n : Nat) (k : String) :
    sget (mergeInit S n).store k = sget S k := rfl

/-- Restatement of `mergeUpsert` through `mergeInit` and `batchWrite`. -/
theorem mergeUpsert_eq (cfg : MergeCfg) (S : Store) (df : List Row) :
    mergeUpsert cfg S df =
      (let good := df.filter (fun r => !isBadPk (rget r cfg.pkCol))
       let fin := good.foldl (mergeStep cfg S) (mergeInit S (df.length - good.length))
       if !cfg.dryRun && !fin.toWrite.isEmpty then
         { stats := fin.stats, conflicts := fin.conflicts,
           store := batchWrite fin.store fin.toWrite,
           ledger := fin.ledger ++ fin.toAudit, backfilled := fin.backfilled }
       else
         { stats := fin.stats, conflicts := fin.conflicts, store := fin.store,
           ledger := fin.ledger, backfilled := fin.backfilled }) := by
  simp only [batchWrite_eq_foldl]
  rfl

/-- Outside dry-run mode the resulting target table is exactly the
batch-write of the staged rows applied to the loop's final live store. -/
theorem mergeUpsert_store_run (cfg : MergeCfg) (S : Store) (df : List Row)
    (hd : cfg.dryRun = false) :
    (mergeUpsert cfg S df).store =
      batchWrite
        ((df.filter (fun r => !isBadPk (rget r cfg.pkCol))).foldl (mergeStep cfg S)
          (mergeInit S (df.length - (df.filter (fun r => !isBadPk (rget r cfg.pkCol))).length))).store
        (stagedOf cfg S (df.filter (fun r => !isBadPk (rget r cfg.pkCol)))) := by
  have hW := foldl_mergeStep_toWrite cfg S (df.filter (fun r => !isBadPk (rget r cfg.pkCol)))
    (mergeInit S (df.length - (df.filter (fun r => !isBadPk (rget r cfg.pkCol))).length))
  rw [mergeInit_toWrite, List.nil_append] at hW
  rw [mergeUpsert_eq]
  simp only [hd, Bool.not_false, Bool.true_and]
  split
  · rw [hW]
  · rename_i hc
    have hemp : ((df.filter (fun r => !isBadPk (rget r cfg.pkCol))).foldl (mergeStep cfg S)
        (mergeInit S (df.length - (df.filter (fun r => !isBadPk (rget r cfg.pkCol))).length))).toWrite
          = [] := by
      rcases he : ((df.filter (fun r => !isBadPk (rget r cfg.pkCol))).foldl (mergeStep cfg S)
        (mergeInit S (df.length - (df.filter (fun r => !isBadPk (rget r cfg.pkCol))).length))).toWrite with
        _ | ⟨w, ws⟩
      · rfl
      · rw [he] at hc
        simp at hc
    rw [← hW, hemp]
    rfl

theorem classifyRow_none_inserted (cfg : MergeCfg) (r : Row) :
    classifyRow cfg none r = RowClass.inserted := by
  rcases htr : cfg.truthyHash with _ | h <;>
    simp [classifyRow, hashShortCircuit, conflictScan, htr]

theorem classifyRow_updated_facts (cfg : MergeCfg) (ex : Option Row) (r : Row)
    (h : classifyRow cfg ex r = RowClass.updated) :
    hashShortCircuit cfg ex r = false ∧
      (ex.isSome && (diffCols ex r cfg.businessCols).isEmpty) = false := by
  by_cases h1 : hashShortCircuit cfg ex r = true
  · rw [classifyRow, if_pos h1] at h
    cases h
  · have h1' : hashShortCircuit cfg ex r = false := by simpa using h1
    by_cases h2 : (ex.isSome && (diffCols ex r cfg.businessCols).isEmpty) = true
    · rw [classifyRow, if_neg (by simp [h1']), if_pos h2] at h
      cases h
    · exact ⟨h1', by simpa using h2⟩

/-- The row stored at a processed row's key after a non-dry-run
`merge_upsert`, as a function of the pre-call snapshot: an inserted row
stores its staged parameters, an updated row overrides the stored row with
them, an unchanged row is at most fingerprint-backfilled, and a conflicted
or untouched row keeps its prior image. -/
def runPost (cfg : MergeCfg) (S : Store) (r : Row) : Option Row :=
  let e := sget S (pkKeyOf cfg r)
  match classifyRow cfg e r with
  | .inserted => some (writeParams cfg r)
  | .updated => e.map (fun er => writeParams cfg r ++ er)
  | _ => if backfillCond cfg e r then e.map (fun er => backfillRow cfg r ++ er) else e

theorem sget_mergeUpsert_store (cfg : MergeCfg) (S : Store) (df : List Row)
    (hd : cfg.dryRun = false)
    (hnd : ((df.filter (fun r => !isBadPk (rget r cfg.pkCol))).map (pkKeyOf cfg)).Nodup)
    (r : Row) (hr : r ∈ df.filter (fun r => !isBadPk (rget r cfg.pkCol))) :
    sget (mergeUpsert cfg S df).store (pkKeyOf cfg r) = runPost cfg S r := by
  rw [mergeUpsert_store_run cfg S df hd]
  rw [batchWrite_at cfg S _ _ r hr hnd]
  rw [foldl_mergeStep_store_at cfg S _ _ r hr hnd]
  rw [sget_mergeInit]
  unfold runPost
  rcases hcls : classifyRow cfg (sget S (pkKeyOf cfg r)) r with _ | _ | _ | _
  · -- unchanged: not staged
    have hst : stageCond cfg (sget S (pkKeyOf cfg r)) r = false := by
      simp [stageCond, hcls]
    rw [hst, if_neg (by simp)]
    simp only [hcls]
  · -- conflicted: not staged
    have hst : stageCond cfg (sget S (pkKeyOf cfg r)) r = false := by
      simp [stageCond, hcls]
    rw [hst, if_neg (by simp)]
    simp only [hcls]
  · -- inserted: snapshot row absent, staged parameters stored
    have hnone : sget S (pkKeyOf cfg r) = none := by
      rcases hopt : sget S (pkKeyOf cfg r) with _ | er
      · rfl
      · rw [hopt] at hcls
        rw [classifyRow] at hcls
        split at hcls
        · cases hcls
        · split at hcls
          · cases hcls
          · split at hcls
            · cases hcls
            · split at hcls
              · rename_i hin
                simp at hin
              · cases hcls
    have hst : stageCond cfg (sget S (pkKeyOf cfg r)) r = true := by
      simp [stageCond, hcls, hd]
    have hbf : backfillCond cfg (sget S (pkKeyOf cfg r)) r = false := by
      simp [backfillCond, hnone]
    rw [hst, if_pos rfl, hbf]
    simp only [Bool.false_eq_true, if_false, hnone, classifyRow_none_inserted]
  · -- updated: snapshot row present, overridden by the staged parameters
    have hfacts := classifyRow_updated_facts cfg (sget S (pkKeyOf cfg r)) r hcls
    have hsome : ∃ er, sget S (pkKeyOf cfg r) = some er := by
      rcases hopt : sget S (pkKeyOf cfg r) with _ | er
      · rw [hopt] at hcls
        rw [classifyRow_none_inserted] at hcls
        cases hcls
      · exact ⟨er, rfl⟩
    obtain ⟨er, her⟩ := hsome
    have hst : stageCond cfg (sget S (pkKeyOf cfg r)) r = true := by
      simp [stageCond, hcls, hd]
    have hbf : backfillCond cfg (sget S (pkKeyOf cfg r)) r = false := by
      simp only [backfillCond, hfacts.2, Bool.and_false, Bool.false_and]
    rw [hst, if_pos rfl, hbf]
    rw [her] at hcls
    simp [her, hcls]

theorem classifyRow_some_ne_inserted (cfg : MergeCfg) (er : Row) (r : Row) :
    classifyRow cfg (some er) r ≠ RowClass.inserted := by
  intro h
  rw [classifyRow] at h
  split at h
  · cases h
  · split at h
    · cases h
    · split at h
      · cases h
      · split at h
        · rename_i hin
          simp at hin
        · cases h

theorem classifyRow_conflicted_facts (cfg : MergeCfg) (ex : Option Row) (r : Row)
    (h : classifyRow cfg ex r = RowClass.conflicted) :
    (ex.isSome && (diffCols ex r cfg.businessCols).isEmpty) = false := by
  by_cases h1 : hashShortCircuit cfg ex r = true
  · rw [classifyRow, if_pos h1] at h
    cases h
  · have h1' : hashShortCircuit cfg ex r = false := by simpa using h1
    by_cases h2 : (ex.isSome && (diffCols ex r cfg.businessCols).isEmpty) = true
    · rw [classifyRow, if_neg (by simp [h1']), if_pos h2] at h
      cases h
    · simpa using h2

theorem classifyRow_unchanged_facts (cfg : MergeCfg) (ex : Option Row) (r : Row)
    (h : classifyRow cfg ex r = RowClass.unchanged) :
    hashShortCircuit cfg ex r = true ∨
      (ex.isSome && (diffCols ex r cfg.businessCols).isEmpty) = true := by
  by_cases h1 : hashShortCircuit cfg ex r = true
  · exact Or.inl h1
  · have h1' : hashShortCircuit cfg ex r = false := by simpa using h1
    by_cases h2 : (ex.isSome && (diffCols ex r cfg.businessCols).isEmpty) = true
    · exact Or.inr h2
    · exfalso
      have h2' : (ex.isSome && (diffCols ex r cfg.businessCols).isEmpty) = false := by
        simpa using h2
      rw [classifyRow, if_neg (by simp [h1']), if_neg (by simp [h2'])] at h
      split at h
      · cases h
      · split at h <;> cases h

theorem businessCols_sub_writeCols (cfg : MergeCfg) (c : String)
    (hc : c ∈ cfg.businessCols) : c ∈ cfg.writeCols := by
  unfold MergeCfg.businessCols at hc
  obtain ⟨hmem, hpred⟩ := List.mem_filter.mp hc
  simp only [Bool.and_eq_true, bne_iff_ne, ne_eq] at hpred
  unfold MergeCfg.writeCols
  refine List.mem_cons_of_mem _ (List.mem_filter.mpr ⟨hmem, ?_⟩)
  simpa using hpred.1.1

theorem rmem_mapCols (r : Row) (cols : List String) (tail : Row) (c : String) (hc : c ∈ cols) :
    rmem ((cols.map (fun c => (c, rget r c))) ++ tail) c = true := by
  induction cols with
  | nil => cases hc
  | cons c0 cs ih =>
    by_cases h : (c0 == c) = true
    · simp [rmem, h]
    · have hf : (c0 == c) = false := by simpa using h
      have hc' : c ∈ cs := by
        cases hc with
        | head => simp at hf
        | tail _ hmem => exact hmem
      simp only [List.map_cons, List.cons_append, rmem, hf, Bool.false_or]
      exact ih hc'

theorem rmem_writeParams (cfg : MergeCfg) (r : Row) (c : String)
    (hc : c ∈ cfg.writeCols) : rmem (writeParams cfg r) c = true :=
  rmem_mapCols r cfg.writeCols _ c hc

/-- Written columns read back as the incoming values, through an override of
any prior row. -/
theorem rget_writeParams_append (cfg : MergeCfg) (r er : Row) (c : String)
    (hc : c ∈ cfg.writeCols) :
    rget (writeParams cfg r ++ er) c = rget r c := by
  rw [rget_append, if_pos (rmem_writeParams cfg r c hc)]
  exact rget_writeParams_of_mem cfg r c hc

theorem diffCols_eq_nil_of_agree (cfg : MergeCfg) (e' : Row) (r : Row)
    (h : ∀ c ∈ cfg.businessCols, rget e' c = rget r c) :
    diffCols (some e') r cfg.businessCols = [] := by
  unfold diffCols
  refine List.filter_eq_nil_iff.mpr ?_
  intro c hc
  simp [h c hc]

/-- Classification of a row against its own post-run stored image: a
conflicted row conflicts again, every other row is unchanged. -/
theorem classifyRow_runPost (cfg : MergeCfg) (S : Store) (r : Row) :
    classifyRow cfg (runPost cfg S r) r =
      if classifyRow cfg (sget S (pkKeyOf cfg r)) r = RowClass.conflicted then
        RowClass.conflicted
      else RowClass.unchanged := by
  unfold runPost
  rcases hcls : classifyRow cfg (sget S (pkKeyOf cfg r)) r with _ | _ | _ | _
  · -- unchanged in run 1
    rw [if_neg (by simp)]
    simp only [hcls]
    rcases hopt : sget S (pkKeyOf cfg r) with _ | er
    · rw [hopt] at hcls
      rw [classifyRow_none_inserted] at hcls
      cases hcls
    · rw [hopt] at hcls
      by_cases hbf : backfillCond cfg (some er) r = true
      · rw [if_pos hbf]
        simp only [Option.map_some']
        -- the backfilled row carries the incoming fingerprint, so the hash
        -- short-circuit fires on the second run
        have hbf2 := hbf
        simp only [backfillCond, Bool.and_eq_true] at hbf2
        obtain ⟨⟨hA, hB⟩, ⟨⟨⟨⟨hbff, hdry⟩, hts⟩, hincH⟩, horp⟩⟩ := hbf2
        rcases hth : cfg.truthyHash with _ | h
        · rw [hth] at hts
          cases hts
        · refine classifyRow_of_shortCircuit cfg _ r ?_
          simp only [hashShortCircuit, hth]
          have hrg : rget (backfillRow cfg r ++ er) h = hashOf cfg r := by
            simp [backfillRow, rget, hth]
          rw [hrg]
          have : hashOf cfg r = rget r h := by simp [hashOf, hth]
          rw [← this]
          simp only [hincH, Bool.and_self, Bool.true_and]
          simp [hincH]
      · have hbf' : backfillCond cfg (some er) r = false := by simpa using hbf
        rw [if_neg (by simp [hbf'])]
        exact hcls
  · -- conflicted in run 1: same snapshot row, conflicts again
    rw [if_pos rfl]
    simp only [hcls]
    rcases hopt : sget S (pkKeyOf cfg r) with _ | er
    · rw [hopt] at hcls
      rw [classifyRow_none_inserted] at hcls
      cases hcls
    · rw [hopt] at hcls
      have hbf : backfillCond cfg (some er) r = false := by
        have h2 := classifyRow_conflicted_facts cfg (some er) r hcls
        simp only [backfillCond, h2, Bool.and_false, Bool.false_and]
      rw [if_neg (by simp [hbf])]
      exact hcls
  · -- inserted in run 1: the stored row is the staged parameter row
    rw [if_neg (by simp)]
    simp only [hcls]
    refine classifyRow_of_emptyDiff cfg _ r ?_
    refine diffCols_eq_nil_of_agree cfg _ r ?_
    intro c hc
    exact rget_writeParams_of_mem cfg r c (businessCols_sub_writeCols cfg c hc)
  · -- updated in run 1: the stored row is overridden by the staged parameters
    rw [if_neg (by simp)]
    simp only [hcls]
    rcases hopt : sget S (pkKeyOf cfg r) with _ | er
    · rw [hopt] at hcls
      rw [classifyRow_none_inserted] at hcls
      cases hcls
    · simp only [Option.map_some']
      refine classifyRow_of_emptyDiff cfg _ r ?_
      refine diffCols_eq_nil_of_agree cfg _ r ?_
      intro c hc
      exact rget_writeParams_append cfg r er c (businessCols_sub_writeCols cfg c hc)

/-! ### Idempotent re-ingestion (claim C3) -/

theorem bumpClass_inserted (c : RowClass) (s : MergeStats) :
    (bumpClass c s).inserted = s.inserted + (if c == RowClass.inserted then 1 else 0) := by
  cases c <;> rfl

theorem bumpClass_updated (c : RowClass) (s : MergeStats) :
    (bumpClass c s).updated = s.updated + (if c == RowClass.updated then 1 else 0) := by
  cases c <;> rfl

theorem bumpClass_unchanged (c : RowClass) (s : MergeStats) :
    (bumpClass c s).unchanged = s.unchanged + (if c == RowClass.unchanged then 1 else 0) := by
  cases c <;> rfl

theorem bumpClass_conflicted (c : RowClass) (s : MergeStats) :
    (bumpClass c s).conflicted = s.conflicted + (if c == RowClass.conflicted then 1 else 0) := by
  cases c <;> rfl

theorem foldl_bump_inserted (g : Row → RowClass) (rows : List Row) (s : MergeStats) :
    (rows.foldl (fun t row => bumpClass (g row) t) s).inserted =
      s.inserted + rows.countP (fun r => g r == RowClass.inserted) := by
  induction rows generalizing s with
  | nil => simp
  | cons r rs ih =>
    simp only [List.foldl_cons, List.countP_cons, ih, bumpClass_inserted]
    omega

theorem foldl_bump_updated (g : Row → RowClass) (rows : List Row) (s : MergeStats) :
    (rows.foldl (fun t row => bumpClass (g row) t) s).updated =
      s.updated + rows.countP (fun r => g r == RowClass.updated) := by
  induction rows generalizing s with
  | nil => simp
  | cons r rs ih =>
    simp only [List.foldl_cons, List.countP_cons, ih, bumpClass_updated]
    omega

theorem foldl_bump_unchanged (g : Row → RowClass) (rows : List Row) (s : MergeStats) :
    (rows.foldl (fun t row => bumpClass (g row) t) s).unchanged =
      s.unchanged + rows.countP (fun r => g r == RowClass.unchanged) := by
  induction rows generalizing s with
  | nil => simp
  | cons r rs ih =>
    simp only [List.foldl_cons, List.countP_cons, ih, bumpClass_unchanged]
    omega

theorem foldl_bump_conflicted (g : Row → RowClass) (rows : List Row) (s : MergeStats) :
    (rows.foldl (fun t row => bumpClass (g row) t) s).conflicted =
      s.conflicted + rows.countP (fun r => g r == RowClass.conflicted) := by
  induction rows generalizing s with
  | nil => simp
  | cons r rs ih =>
    simp only [List.foldl_cons, List.countP_cons, ih, bumpClass_conflicted]
    omega

theorem rejOnly_inserted (n : Nat) : ({ rejected := n } : MergeStats).inserted = 0 := rfl

theorem rejOnly_updated (n : Nat) : ({ rejected := n } : MergeStats).updated = 0 := rfl

theorem rejOnly_unchanged (n : Nat) : ({ rejected := n } : MergeStats).unchanged = 0 := rfl

theorem countP_not_conflicted (g : Row → RowClass) (rows : List Row) :
    rows.countP (fun r => !(g r == RowClass.conflicted)) =
      rows.countP (fun r => g r == RowClass.unchanged)
        + rows.countP (fun r => g r == RowClass.inserted)
        + rows.countP (fun r => g r == RowClass.updated) := by
  induction rows with
  | nil => rfl
  | cons r rs ih =>
    simp only [List.countP_cons, ih]
    cases hgr : g r <;> simp [hgr] <;> omega

/-- Restatement of `mergeUpsert_stats` through `pkKeyOf`. -/
theorem mergeUpsert_stats_key (cfg : MergeCfg) (S : Store) (df : List Row) :
    (mergeUpsert cfg S df).stats =
      (df.filter (fun r => !isBadPk (rget r cfg.pkCol))).foldl
        (fun s row => bumpClass (classifyRow cfg (sget S (pkKeyOf cfg row)) row) s)
        { rejected := df.length - (df.filter (fun r => !isBadPk (rget r cfg.pkCol))).length } :=
  mergeUpsert_stats cfg S df

/-- Claim C3, counterexample to "zero conflicted rows on the second run":
a row whose protected column differs from the stored row conflicts on the
first run, is therefore never written, and conflicts again identically on
the second run. -/
theorem merge_idempotent_cex :
    (let cfg : MergeCfg :=
      { eventId := "e1", table := "t", pkCol := "pk", compareCols := ["pk", "a"],
        protectedCols := ["a"], dryRun := false, hashCol := none,
        metaCols := [], backfillHash := true }
     let S : Store := [("1", [("pk", .int 1), ("a", .int 1)])]
     let df : List Row := [[("pk", .int 1), ("a", .int 2)]]
     (mergeUpsert cfg S df).stats.conflicted = 1
       ∧ (mergeUpsert cfg (mergeUpsert cfg S df).store df).stats.conflicted = 1
       ∧ (mergeUpsert cfg (mergeUpsert cfg S df).store df).stats.unchanged = 0) := by
  decide

/-- Claim C3 (amended): running a non-dry-run `merge_upsert` a second time
with identical input against the store produced by the first run — for an
input whose non-rejected rows have pairwise-distinct primary-key texts, and
whose compare columns do not collide with the bookkeeping column
`last_change_event_id` — yields zero inserted and zero updated rows; every
row conflicted in the first run is conflicted again (same conflicted
count), every other non-rejected row is UNCHANGED, and the rejected count
is unchanged.  The claim's "zero conflicted" holds exactly when the first
run produced no conflicts. -/
theorem merge_idempotent_reingestion (cfg : MergeCfg) (S : Store) (df : List Row)
    (hd : cfg.dryRun = false)
    (_hl : "last_change_event_id" ∉ cfg.compareCols)
    (hnd : ((df.filter (fun r => !isBadPk (rget r cfg.pkCol))).map (pkKeyOf cfg)).Nodup) :
    (mergeUpsert cfg (mergeUpsert cfg S df).store df).stats.inserted = 0
      ∧ (mergeUpsert cfg (mergeUpsert cfg S df).store df).stats.updated = 0
      ∧ (mergeUpsert cfg (mergeUpsert cfg S df).store df).stats.conflicted =
          (mergeUpsert cfg S df).stats.conflicted
      ∧ (mergeUpsert cfg (mergeUpsert cfg S df).store df).stats.unchanged =
          (mergeUpsert cfg S df).stats.unchanged + (mergeUpsert cfg S df).stats.inserted
            + (mergeUpsert cfg S df).stats.updated
      ∧ (mergeUpsert cfg (mergeUpsert cfg S df).store df).stats.rejected =
          (mergeUpsert cfg S df).stats.rejected := by
  have hkey : ∀ r ∈ df.filter (fun r => !isBadPk (rget r cfg.pkCol)),
      classifyRow cfg (sget (mergeUpsert cfg S df).store (pkKeyOf cfg r)) r =
        (if classifyRow cfg (sget S (pkKeyOf cfg r)) r = RowClass.conflicted then
          RowClass.conflicted else RowClass.unchanged) := by
    intro r hr
    rw [sget_mergeUpsert_store cfg S df hd hnd r hr, classifyRow_runPost]
  have h1 := mergeUpsert_stats_key cfg S df
  have h2 := mergeUpsert_stats_key cfg (mergeUpsert cfg S df).store df
  refine ⟨?_, ?_, ?_, ?_, ?_⟩
  · rw [h2, foldl_bump_inserted]
    have : (df.filter (fun r => !isBadPk (rget r cfg.pkCol))).countP
        (fun r => classifyRow cfg (sget (mergeUpsert cfg S df).store (pkKeyOf cfg r)) r
          == RowClass.inserted) = 0 := by
      refine List.countP_eq_zero.mpr ?_
      intro r hr
      rw [hkey r hr]
      split <;> simp
    rw [this]
  · rw [h2, foldl_bump_updated]
    have : (df.filter (fun r => !isBadPk (rget r cfg.pkCol))).countP
        (fun r => classifyRow cfg (sget (mergeUpsert cfg S df).store (pkKeyOf cfg r)) r
          == RowClass.updated) = 0 := by
      refine List.countP_eq_zero.mpr ?_
      intro r hr
      rw [hkey r hr]
      split <;> simp
    rw [this]
  · rw [h1, h2, foldl_bump_conflicted, foldl_bump_conflicted]
    have : (df.filter (fun r => !isBadPk (rget r cfg.pkCol))).countP
        (fun r => classifyRow cfg (sget (mergeUpsert cfg S df).store (pkKeyOf cfg r)) r
          == RowClass.conflicted) =
        (df.filter (fun r => !isBadPk (rget r cfg.pkCol))).countP
          (fun r => classifyRow cfg (sget S (pkKeyOf cfg r)) r == RowClass.conflicted) := by
      refine List.countP_congr ?_
      intro r hr
      rw [hkey r hr]
      constructor
      · intro h
        split at h
        · rename_i hc
          simp [hc]
        · simp at h
      · intro h
        have hc : classifyRow cfg (sget S (pkKeyOf cfg r)) r = RowClass.conflicted := by
          simpa using h
        rw [if_pos hc]
        rfl
    rw [this]
  · rw [h1, h2, foldl_bump_unchanged, foldl_bump_inserted, foldl_bump_updated,
      foldl_bump_unchanged]
    have : (df.filter (fun r => !isBadPk (rget r cfg.pkCol))).countP
        (fun r => classifyRow cfg (sget (mergeUpsert cfg S df).store (pkKeyOf cfg r)) r
          == RowClass.unchanged) =
        (df.filter (fun r => !isBadPk (rget r cfg.pkCol))).countP
          (fun r => !(classifyRow cfg (sget S (pkKeyOf cfg r)) r == RowClass.conflicted)) := by
      refine List.countP_congr ?_
      intro r hr
      rw [hkey r hr]
      constructor
      · intro h
        split at h
        · simp at h
        · rename_i hc
          simp [hc]
      · intro h
        have hc : ¬ classifyRow cfg (sget S (pkKeyOf cfg r)) r = RowClass.conflicted := by
          simpa using h
        rw [if_neg hc]
        rfl
    rw [this, countP_not_conflicted]
    simp only [rejOnly_inserted, rejOnly_updated, rejOnly_unchanged]
    omega
  · rw [h1, h2, foldl_bump_rejected, foldl_bump_rejected]

/-- Witness instantiating `merge_idempotent_reingestion` at a concrete
input: two inserts on the first run, all unchanged on the second. -/
theorem merge_idempotent_reingestion_witness :
    (let cfg : MergeCfg :=
      { eventId := "e1", table := "t", pkCol := "pk", compareCols := ["pk", "amt"],
        protectedCols := [], dryRun := false, hashCol := none,
        metaCols := [], backfillHash := true }
     let df : List Row := [[("pk", .int 1), ("amt", .int 100)], [("pk", .int 2), ("amt", .int 200)]]
     (mergeUpsert cfg (mergeUpsert cfg [] df).store df).stats.inserted = 0
       ∧ (mergeUpsert cfg (mergeUpsert cfg [] df).store df).stats.updated = 0
       ∧ (mergeUpsert cfg (mergeUpsert cfg [] df).store df).stats.conflicted =
           (mergeUpsert cfg [] df).stats.conflicted
       ∧ (mergeUpsert cfg (mergeUpsert cfg [] df).store df).stats.unchanged =
           (mergeUpsert cfg [] df).stats.unchanged + (mergeUpsert cfg [] df).stats.inserted
             + (mergeUpsert cfg [] df).stats.updated
       ∧ (mergeUpsert cfg (mergeUpsert cfg [] df).store df).stats.rejected =
           (mergeUpsert cfg [] df).stats.rejected) :=
  merge_idempotent_reingestion _ _ _ (by decide) (by decide) (by decide)

/-! ### The row fingerprint `_compute_row_hash` (claim C6)

`_compute_row_hash` (src/pipeline.py lines 48-61) selects the given columns,
replaces missing values by the empty string, converts every cell to `str`,
and hashes each row with `pd.util.hash_pandas_object(..., index=False)`,
formatting the resulting unsigned 64-bit value as `f"{x:016x}"`.

The pandas library call is modelled faithfully from pandas'
`core/util/hashing.py` and `_libs/hashing.pyx`: each column's string is
hashed with SipHash-2-4 under the fixed key "0123456789123456", passed
through the splitmix64 finalizer, and the per-column 64-bit hashes are
combined left-to-right with the multiplier-accumulator scheme of
`combine_hash_arrays` — which is order-DEPENDENT in the column order. -/

def U64 : Nat := 2 ^ 64

/-- Rotate a 64-bit value left by `n` (0 < n < 64, x < 2^64). -/
def rotl64 (x n : Nat) : Nat :=
  ((x <<< n) % U64) ||| (x >>> (64 - n))

/-- One SipHash round. -/
def sipRound : Nat × Nat × Nat × Nat → Nat × Nat × Nat × Nat
  | (v0, v1, v2, v3) =>
    let v0 := (v0 + v1) % U64
    let v1 := rotl64 v1 13
    let v1 := v1 ^^^ v0
    let v0 := rotl64 v0 32
    let v2 := (v2 + v3) % U64
    let v3 := rotl64 v3 16
    let v3 := v3 ^^^ v2
    let v0 := (v0 + v3) % U64
    let v3 := rotl64 v3 21
    let v3 := v3 ^^^ v0
    let v2 := (v2 + v1) % U64
    let v1 := rotl64 v1 17
    let v1 := v1 ^^^ v2
    let v2 := rotl64 v2 32
    (v0, v1, v2, v3)

/-- Little-endian word value of a byte list (first byte least significant). -/
def leWord (bs : List Nat) : Nat :=
  bs.foldr (fun b acc => b + 256 * acc) 0

/-- Process the message blocks of SipHash-2-4 and finalize. `len` is the
total message length in bytes. -/
def sipBlocks : Nat × Nat × Nat × Nat → List Nat → Nat → Nat
  | (v0, v1, v2, v3), b0 :: b1 :: b2 :: b3 :: b4 :: b5 :: b6 :: b7 :: rest, len =>
      let m := leWord [b0, b1, b2, b3, b4, b5, b6, b7]
      let v3 := v3 ^^^ m
      let (v0, v1, v2, v3) := sipRound (sipRound (v0, v1, v2, v3))
      let v0 := v0 ^^^ m
      sipBlocks (v0, v1, v2, v3) rest len
  | (v0, v1, v2, v3), rest, len =>
      let b := (((len % 256) <<< 56) % U64) ||| leWord rest
      let v3 := v3 ^^^ b
      let (v0, v1, v2, v3) := sipRound (sipRound (v0, v1, v2, v3))
      let v0 := v0 ^^^ b
      let v2 := v2 ^^^ 0xff
      let (v0, v1, v2, v3) := sipRound (sipRound (sipRound (sipRound (v0, v1, v2, v3))))
      v0 ^^^ v1 ^^^ v2 ^^^ v3

/-- Low half of pandas' fixed hash key "0123456789123456", little-endian. -/
def pandasK0 : Nat := 0x3736353433323130

/-- High half of pandas' fixed hash key. -/
def pandasK1 : Nat := 0x3635343332313938

/-- SipHash-2-4 of a byte string under the pandas key. -/
def siphash24 (msg : List Nat) : Nat :=
  sipBlocks
    (pandasK0 ^^^ 0x736f6d6570736575,
     pandasK1 ^^^ 0x646f72616e646f6d,
     pandasK0 ^^^ 0x6c7967656e657261,
     pandasK1 ^^^ 0x7465646279746573)
    msg msg.length

/-- The splitmix64 finalizer applied by pandas `hash_array` to redistribute
the 64-bit hashes. -/
def scramble (h : Nat) : Nat :=
  let h := h ^^^ (h >>> 30)
  let h := (h * 0xbf58476d1ce4e5b9) % U64
  let h := h ^^^ (h >>> 27)
  let h := (h * 0x94d049bb133111eb) % U64
  h ^^^ (h >>> 31)

/-- UTF-8 encoding of a Unicode code point. -/
def utf8Bytes (c : Nat) : List Nat :=
  if c < 0x80 then [c]
  else if c < 0x800 then
    [0xC0 ||| (c >>> 6), 0x80 ||| (c &&& 0x3F)]
  else if c < 0x10000 then
    [0xE0 ||| (c >>> 12), 0x80 ||| ((c >>> 6) &&& 0x3F), 0x80 ||| (c &&& 0x3F)]
  else
    [0xF0 ||| (c >>> 18), 0x80 ||| ((c >>> 12) &&& 0x3F),
     0x80 ||| ((c >>> 6) &&& 0x3F), 0x80 ||| (c &&& 0x3F)]

/-- UTF-8 bytes of a string (`val.encode("utf8")`). -/
def strBytes (s : String) : List Nat :=
  (s.data.map Char.toNat).flatMap utf8Bytes

/-- Per-cell 64-bit hash: SipHash-2-4 of the UTF-8 string then splitmix64. -/
def colHash (s : String) : Nat :=
  scramble (siphash24 (strBytes s))

/-- The accumulator loop of pandas `combine_hash_arrays`: `inv` carries
`num_items - i` for the running index `i`. -/
def combineGo (out mult : Nat) (hs : List Nat) (inv : Nat) : Nat :=
  match hs with
  | [] => (out + 97531) % U64
  | h :: rest =>
      let out := (((out ^^^ h) % U64) * mult) % U64
      let mult := (mult + 82520 + inv + inv) % U64
      combineGo out mult rest (inv - 1)

/-- Combine the per-column hashes in the given column order
(`combine_hash_arrays`). -/
def combineHashes (hs : List Nat) : Nat :=
  combineGo 0x345678 1000003 hs hs.length

/-- `fillna("")` followed by `astype(str)` on one cell: missing values become
the empty string, everything else its string rendering. -/
def normalizeCell (v : Value) : String :=
  match v with
  | .null => ""
  | v => v.pyStr

/-- A hexadecimal digit character, lowercase. -/
def hexDigit (n : Nat) : Char :=
  if n < 10 then Char.ofNat (48 + n) else Char.ofNat (87 + n)

/-- `f"{x:016x}"` for `x < 2^64`: exactly 16 lowercase hex digits, most
significant first. -/
def hex16 (n : Nat) : String :=
  String.mk ((List.range 16).map (fun i => hexDigit ((n >>> (4 * (15 - i))) % 16)))

/-- `_compute_row_hash` (src/pipeline.py lines 48-61) applied to one row and
a column list. -/
def computeRowHash (row : Row) (cols : List String) : String :=
  hex16 (combineHashes (cols.map (fun c => colHash (normalizeCell (rget row c)))))

/-- Claim C6, counterexample to "independent of the order in which the
columns are given": hashing the same row over the same column set in the
two orders gives different fingerprints, because pandas
`combine_hash_arrays` folds the per-column hashes with a
position-dependent multiplier. -/
theorem fingerprint_order_cex :
    computeRowHash [("a", .str "x"), ("b", .str "y")] ["a", "b"] ≠
      computeRowHash [("a", .str "x"), ("b", .str "y")] ["b", "a"] := by
  decide

/-- Claim C6 (amended): the row hash is a function of the normalized cell
values of the given columns in their given order (hence deterministic),
normalizes missing values to the empty string so that `None` and `""`
fingerprint identically, and is always a 16-character lowercase hexadecimal
string.  It is NOT independent of the column order. -/
theorem fingerprint_properties :
    (∀ (r1 r2 : Row) (cols : List String),
        (∀ c ∈ cols, normalizeCell (rget r1 c) = normalizeCell (rget r2 c)) →
        computeRowHash r1 cols = computeRowHash r2 cols)
    ∧ normalizeCell Value.null = "" ∧ normalizeCell (Value.str "") = ""
    ∧ (∀ (r : Row) (cols : List String), (computeRowHash r cols).length = 16)
    ∧ (∀ (r : Row) (cols : List String) (ch : Char),
        ch ∈ (computeRowHash r cols).data → ch ∈ "0123456789abcdef".data) := by
  refine ⟨?_, rfl, rfl, ?_, ?_⟩
  · intro r1 r2 cols h
    have hmap : cols.map (fun c => colHash (normalizeCell (rget r1 c))) =
        cols.map (fun c => colHash (normalizeCell (rget r2 c))) :=
      List.map_congr_left (fun c hc => by rw [h c hc])
    rw [computeRowHash, computeRowHash, hmap]
  · intro r cols
    simp [computeRowHash, hex16, String.length]
  · intro r cols ch hch
    simp only [computeRowHash, hex16, List.mem_map] at hch
    obtain ⟨i, _hi, rfl⟩ := hch
    have hm : (combineHashes (cols.map (fun c => colHash (normalizeCell (rget r c)))))
        >>> (4 * (15 - i)) % 16 < 16 := Nat.mod_lt _ (by norm_num)
    set m := (combineHashes (cols.map (fun c => colHash (normalizeCell (rget r c)))))
        >>> (4 * (15 - i)) % 16 with hm_def
    interval_cases m <;> decide

/-- Witness instantiating the hypotheses of `fingerprint_properties` at
concrete inputs: a missing cell and an empty-string cell fingerprint
identically, and a concrete digit of a concrete hash is hexadecimal. -/
theorem fingerprint_properties_witness :
    computeRowHash [("a", Value.null), ("b", .int 3)] ["a", "b"] =
        computeRowHash [("a", Value.str ""), ("b", .int 3)] ["a", "b"]
      ∧ '0' ∈ "0123456789abcdef".data := by
  refine ⟨?_, ?_⟩
  · exact fingerprint_properties.1 _ _ _ (by decide)
  · exact fingerprint_properties.2.2.2.2 [] [] '0' (by decide)

/-! ### State images and the HEAD chain (src/state.py)

The state tables are modelled directly: `etl_state_images` as a list of
`StateImage` records (insertion order), the HEAD pointer as an
`Option String`, and `uuid.uuid4()` as an injective fresh-identifier
supply.  The `notes` column of state images is bookkeeping no claim
mentions and is omitted. -/

structure StateImage where
  sid : String
  eventId : String
  parent : Option String
deriving DecidableEq, Repr

abbrev ImageStore := List StateImage

/-- `_get_state_image` (src/state.py lines 90-106): lookup by state-image id. -/
def findImage (st : ImageStore) (sid : String) : Option StateImage :=
  match st with
  | [] => none
  | img :: rest => if img.sid == sid then some img else findImage rest sid

/-- `_get_state_image_by_change_event` (src/state.py lines 109-125). -/
def findImageByEvent (st : ImageStore) (eid : String) : Option StateImage :=
  match st with
  | [] => none
  | img :: rest => if img.eventId == eid then some img else findImageByEvent rest eid

/-- `img.get("parent_state_image_id") or ""` (src/state.py line 156). -/
def parentKey (img : StateImage) : String :=
  img.parent.getD ""

/-- Outcome of the chain walk.  `errImageMissing` is the
"State image not found" raise, `errUnreachable` the "Target is not
reachable from current HEAD" raise, `errCorrupt` the
"State image chain contains a cycle (corrupt state)" raise.
`errTargetMissing` is the "No state image exists for change_event_id"
raise of `rollback_to_point_in_time`.  `outOfFuel` marks exhaustion of the
explicit fuel used to embed the Python `while` loop; the termination
theorem shows it never occurs at the fuel `collectChain` supplies. -/
inductive WalkResult where
  | ok (chain : List StateImage)
  | errTargetMissing (eid : String)
  | errImageMissing (sid : String)
  | errUnreachable
  | errCorrupt
  | outOfFuel
deriving DecidableEq, Repr

/-- The loop body of `_collect_head_to_target_chain` (src/state.py lines
128-158), with the Python `while` loop rendered as structural recursion on
explicit fuel.  Branch order matches the source: loop exit on a falsy
current id (unreachable), the `seen` cycle check, the image lookup, the
target test, then the step to the parent. -/
def walkAux (st : ImageStore) (target : String) :
    Nat → List String → List StateImage → String → WalkResult
  | 0, _, _, _ => .outOfFuel
  | fuel + 1, seen, chain, cur =>
      if cur = "" then .errUnreachable
      else if cur ∈ seen then .errCorrupt
      else
        match findImage st cur with
        | none => .errImageMissing cur
        | some img =>
            if img.sid = target then .ok (chain ++ [img])
            else walkAux st target fuel (cur :: seen) (chain ++ [img]) (parentKey img)

/-- `_collect_head_to_target_chain`: one more unit of fuel than there are
state images always suffices (termination theorem below). -/
def collectChain (st : ImageStore) (head target : String) : WalkResult :=
  walkAux st target (st.length + 1) [] [] head

/-- The target-resolution step of `rollback_to_point_in_time` (src/state.py
lines 469-477) followed by the chain walk. -/
def walkTo (st : ImageStore) (head targetEid : String) : WalkResult :=
  match findImageByEvent st targetEid with
  | none => .errTargetMissing targetEid
  | some timg => collectChain st head timg.sid

theorem findImage_mem (st : ImageStore) (sid : String) (img : StateImage)
    (h : findImage st sid = some img) : img ∈ st ∧ img.sid = sid := by
  induction st with
  | nil => cases h
  | cons i rest ih =>
    by_cases hk : (i.sid == sid) = true
    · rw [findImage, if_pos hk] at h
      cases h
      exact ⟨List.mem_cons_self _ _, by simpa using hk⟩
    · rw [findImage, if_neg (by simpa using hk)] at h
      obtain ⟨hm, he⟩ := ih h
      exact ⟨List.mem_cons_of_mem _ hm, he⟩

theorem nodup_length_le {l l' : List String} (hnd : l.Nodup) (hsub : ∀ a ∈ l, a ∈ l') :
    l.length ≤ l'.length := by
  induction l generalizing l' with
  | nil => simp
  | cons a rest ih =>
    simp only [List.nodup_cons] at hnd
    have ha : a ∈ l' := hsub a (List.mem_cons_self _ _)
    have hrest : ∀ b ∈ rest, b ∈ l'.erase a := by
      intro b hb
      refine (List.mem_erase_of_ne ?_).mpr (hsub b (List.mem_cons_of_mem _ hb))
      intro e
      exact hnd.1 (e ▸ hb)
    have hlen := ih hnd.2 hrest
    have herase := List.length_erase_of_mem ha
    have hpos : 0 < l'.length := List.length_pos.mpr (List.ne_nil_of_mem ha)
    simp only [List.length_cons]
    omega

/-- Termination of the chain walk: as long as the visited set stays duplicate
free inside the store's ids and the fuel covers the remaining ids, the walk
never exhausts its fuel. -/
theorem walkAux_ne_outOfFuel (st : ImageStore) (target : String) (fuel : Nat)
    (seen : List String) (chain : List StateImage) (cur : String)
    (hnd : seen.Nodup) (hsub : ∀ s ∈ seen, s ∈ st.map StateImage.sid)
    (hfuel : st.length + 1 ≤ fuel + seen.length) :
    walkAux st target fuel seen chain cur ≠ .outOfFuel := by
  induction fuel generalizing seen chain cur with
  | zero =>
    exfalso
    have := nodup_length_le hnd hsub
    simp only [List.length_map] at this
    omega
  | succ fuel ih =>
    rw [walkAux]
    split
    · simp
    · split
      · simp
      · rename_i hcur hseen
        rcases hfind : findImage st cur with _ | img
        · simp
        · show (if img.sid = target then WalkResult.ok (chain ++ [img])
              else walkAux st target fuel (cur :: seen) (chain ++ [img]) (parentKey img)) ≠
              WalkResult.outOfFuel
          by_cases ht : img.sid = target
          · rw [if_pos ht]
            simp
          · rw [if_neg ht]
            refine ih (cur :: seen) (chain ++ [img]) (parentKey img) ?_ ?_ ?_
            · exact List.nodup_cons.mpr ⟨hseen, hnd⟩
            · intro s hs
              rcases List.mem_cons.mp hs with h | h
              · obtain ⟨hm, he⟩ := findImage_mem st cur img hfind
                exact h ▸ he ▸ List.mem_map_of_mem StateImage.sid hm
              · exact hsub s h
            · simp only [List.length_cons]
              omega

/-- Parent-linked chain from `cur` ending at the image whose id is `target`
("target is an ancestor of HEAD", walked via `parent_state_image_id`). -/
inductive ChainTo (st : ImageStore) (target : String) : String → List StateImage → Prop where
  | base (cur : String) (img : StateImage) :
      findImage st cur = some img → img.sid = target → ChainTo st target cur [img]
  | step (cur : String) (img : StateImage) (l : List StateImage) :
      findImage st cur = some img → img.sid ≠ target →
      ChainTo st target (parentKey img) l → ChainTo st target cur (img :: l)

/-- Parent-linked chain from `cur` down to a root (an image whose parent id
is falsy). -/
inductive RootChain (st : ImageStore) : String → List StateImage → Prop where
  | base (cur : String) (img : StateImage) :
      findImage st cur = some img → parentKey img = "" → RootChain st cur [img]
  | step (cur : String) (img : StateImage) (l : List StateImage) :
      findImage st cur = some img → parentKey img ≠ "" →
      RootChain st (parentKey img) l → RootChain st cur (img :: l)

/-- Arbitrary nonempty parent-linked chain from `cur`. -/
inductive LinkChain (st : ImageStore) : String → List StateImage → Prop where
  | single (cur : String) (img : StateImage) :
      findImage st cur = some img → LinkChain st cur [img]
  | step (cur : String) (img : StateImage) (l : List StateImage) :
      findImage st cur = some img → LinkChain st (parentKey img) l →
      LinkChain st cur (img :: l)

theorem ChainTo_sub (st : ImageStore) (target : String) :
    ∀ {cur l}, ChainTo st target cur l → ∀ img ∈ l, img ∈ st := by
  intro cur l h
  induction h with
  | base c i hfind _ =>
    intro j hj
    have hji : j = i := List.mem_singleton.mp hj
    subst hji
    exact (findImage_mem st c j hfind).1
  | step c i l2 hfind _ _ ih =>
    intro j hj
    rcases List.mem_cons.mp hj with h1 | h1
    · subst h1
      exact (findImage_mem st c j hfind).1
    · exact ih j h1

theorem sid_mem_head (img : StateImage) (l : List StateImage) :
    img.sid ∈ List.map StateImage.sid (img :: l) := by
  simp

theorem walkAux_ok (st : ImageStore) (target : String) :
    ∀ {cur l}, ChainTo st target cur l →
    ∀ (fuel : Nat) (seen : List String) (chain : List StateImage),
    (l.map StateImage.sid).Nodup → "" ∉ l.map StateImage.sid →
    (∀ s ∈ seen, s ∉ l.map StateImage.sid) → l.length ≤ fuel →
    walkAux st target fuel seen chain cur = .ok (chain ++ l) := by
  intro cur l h
  induction h with
  | base cur img hfind htgt =>
    intro fuel seen chain hnd hne hdis hfl
    obtain ⟨hm, hsid⟩ := findImage_mem st cur img hfind
    cases fuel with
    | zero => simp at hfl
    | succ f =>
      have hcur : cur ≠ "" := fun e => hne (by rw [← e, ← hsid]; exact sid_mem_head img _)
      have hseen : cur ∉ seen := fun hs => hdis cur hs (by rw [← hsid]; exact sid_mem_head img _)
      simp only [walkAux, if_neg hcur, if_neg hseen, hfind, if_pos htgt]
  | step cur img l hfind htgt hrest ih =>
    intro fuel seen chain hnd hne hdis hfl
    obtain ⟨hm, hsid⟩ := findImage_mem st cur img hfind
    cases fuel with
    | zero => simp at hfl
    | succ f =>
      have hcur : cur ≠ "" := fun e => hne (by rw [← e, ← hsid]; exact sid_mem_head img _)
      have hseen : cur ∉ seen := fun hs => hdis cur hs (by rw [← hsid]; exact sid_mem_head img _)
      simp only [walkAux, if_neg hcur, if_neg hseen, hfind, if_neg htgt]
      simp only [List.map_cons, List.nodup_cons] at hnd hne
      have hrec := ih f (cur :: seen) (chain ++ [img])
        hnd.2 (fun e => hne (List.mem_cons_of_mem _ e))
        (by
          intro s hs
          rcases List.mem_cons.mp hs with rfl | hs
          · exact hsid ▸ hnd.1
          · exact fun hmem => hdis s hs (List.mem_cons_of_mem _ hmem))
        (by simp only [List.length_cons] at hfl; omega)
      rw [hrec, List.append_assoc]
      rfl

theorem walkAux_unreachable (st : ImageStore) (target : String) :
    ∀ {cur l}, RootChain st cur l →
    ∀ (fuel : Nat) (seen : List String) (chain : List StateImage),
    target ∉ l.map StateImage.sid →
    (l.map StateImage.sid).Nodup → "" ∉ l.map StateImage.sid →
    (∀ s ∈ seen, s ∉ l.map StateImage.sid) → l.length + 1 ≤ fuel →
    walkAux st target fuel seen chain cur = .errUnreachable := by
  intro cur l h
  induction h with
  | base cur img hfind hroot =>
    intro fuel seen chain htgt hnd hne hdis hfl
    obtain ⟨hm, hsid⟩ := findImage_mem st cur img hfind
    match fuel, hfl with
    | f + 2, _ =>
      have hcur : cur ≠ "" := fun e => hne (by rw [← e, ← hsid]; exact sid_mem_head img _)
      have hseen : cur ∉ seen := fun hs => hdis cur hs (by rw [← hsid]; exact sid_mem_head img _)
      have hnt : img.sid ≠ target := fun e => htgt (by rw [← e]; exact sid_mem_head img _)
      simp only [walkAux, if_neg hcur, if_neg hseen, hfind, if_neg hnt, hroot]
      simp [walkAux]
  | step cur img l hfind hnr hrest ih =>
    intro fuel seen chain htgt hnd hne hdis hfl
    obtain ⟨hm, hsid⟩ := findImage_mem st cur img hfind
    cases fuel with
    | zero => simp at hfl
    | succ f =>
      have hcur : cur ≠ "" := fun e => hne (by rw [← e, ← hsid]; exact sid_mem_head img _)
      have hseen : cur ∉ seen := fun hs => hdis cur hs (by rw [← hsid]; exact sid_mem_head img _)
      have hnt : img.sid ≠ target := fun e => htgt (by rw [← e]; exact sid_mem_head img _)
      simp only [walkAux, if_neg hcur, if_neg hseen, hfind, if_neg hnt]
      simp only [List.map_cons, List.nodup_cons] at hnd hne
      simp only [List.map_cons, List.mem_cons, not_or] at htgt
      refine ih f (cur :: seen) (chain ++ [img]) htgt.2 hnd.2 (fun e => hne (List.mem_cons_of_mem _ e)) ?_ ?_
      · intro s hs
        rcases List.mem_cons.mp hs with rfl | hs
        · exact hsid ▸ hnd.1
        · exact fun hmem => hdis s hs (List.mem_cons_of_mem _ hmem)
      · simp only [List.length_cons] at hfl
        omega

theorem walkAux_corrupt (st : ImageStore) (target : String) :
    ∀ {cur l}, LinkChain st cur l →
    ∀ (fuel : Nat) (seen : List String) (chain : List StateImage) (lst : StateImage),
    l.getLast? = some lst →
    target ∉ l.map StateImage.sid →
    (l.map StateImage.sid).Nodup → "" ∉ l.map StateImage.sid →
    (∀ s ∈ seen, s ∉ l.map StateImage.sid) → "" ∉ seen →
    (parentKey lst ∈ l.map StateImage.sid ∨ parentKey lst ∈ seen) →
    l.length + 1 ≤ fuel →
    walkAux st target fuel seen chain cur = .errCorrupt := by
  intro cur l h
  induction h with
  | single cur img hfind =>
    intro fuel seen chain lst hlst htgt hnd hne hdis hseenne hcyc hfl
    obtain ⟨hm, hsid⟩ := findImage_mem st cur img hfind
    have hlst' : lst = img := by simpa using hlst.symm
    subst hlst'
    match fuel, hfl with
    | f + 2, _ =>
      have hcur : cur ≠ "" := fun e => hne (by rw [← e, ← hsid]; exact sid_mem_head lst _)
      have hseen : cur ∉ seen := fun hs => hdis cur hs (by rw [← hsid]; exact sid_mem_head lst _)
      have hnt : lst.sid ≠ target := fun e => htgt (by rw [← e]; exact sid_mem_head lst _)
      simp only [walkAux, if_neg hcur, if_neg hseen, hfind, if_neg hnt]
      have hpne : parentKey lst ≠ "" := by
        intro e
        rcases hcyc with hc | hc
        · exact hne (e ▸ hc)
        · exact hseenne (e ▸ hc)
      have hpmem : parentKey lst ∈ cur :: seen := by
        rcases hcyc with hc | hc
        · have hps : parentKey lst = lst.sid := by simpa using hc
          rw [hps, hsid]
          exact List.mem_cons_self _ _
        · exact List.mem_cons_of_mem _ hc
      simp only [walkAux, if_neg hpne, if_pos hpmem]
  | step cur img l hfind hrest ih =>
    intro fuel seen chain lst hlst htgt hnd hne hdis hseenne hcyc hfl
    obtain ⟨hm, hsid⟩ := findImage_mem st cur img hfind
    have hlne : l ≠ [] := by
      cases hrest <;> simp
    cases fuel with
    | zero => simp at hfl
    | succ f =>
      have hcur : cur ≠ "" := fun e => hne (by rw [← e, ← hsid]; exact sid_mem_head img _)
      have hseen : cur ∉ seen := fun hs => hdis cur hs (by rw [← hsid]; exact sid_mem_head img _)
      have hnt : img.sid ≠ target := fun e => htgt (by rw [← e]; exact sid_mem_head img _)
      simp only [walkAux, if_neg hcur, if_neg hseen, hfind, if_neg hnt]
      have hlst2 : l.getLast? = some lst := by
        rcases l with _ | ⟨b, t⟩
        · cases hlne rfl
        · rwa [List.getLast?_cons_cons] at hlst
      simp only [List.map_cons, List.nodup_cons] at hnd hne
      simp only [List.map_cons, List.mem_cons, not_or] at htgt
      refine ih f (cur :: seen) (chain ++ [img]) lst hlst2 htgt.2 hnd.2
        (fun e => hne (List.mem_cons_of_mem _ e)) ?_ ?_ ?_ ?_
      · intro s hs
        rcases List.mem_cons.mp hs with rfl | hs
        · exact hsid ▸ hnd.1
        · exact fun hmem => hdis s hs (List.mem_cons_of_mem _ hmem)
      · intro hs
        rcases List.mem_cons.mp hs with he | hs
        · exact hcur he.symm
        · exact hseenne hs
      · rcases hcyc with hc | hc
        · rw [List.map_cons] at hc
          rcases List.mem_cons.mp hc with he | hc2
          · exact Or.inr (by rw [he, hsid]; exact List.mem_cons_self _ _)
          · exact Or.inl hc2
        · exact Or.inr (List.mem_cons_of_mem _ hc)
      · simp only [List.length_cons] at hfl
        omega

theorem RootChain_sub (st : ImageStore) :
    ∀ {cur l}, RootChain st cur l → ∀ img ∈ l, img ∈ st := by
  intro cur l h
  induction h with
  | base c i hfind _ =>
    intro j hj
    have hji : j = i := List.mem_singleton.mp hj
    subst hji
    exact (findImage_mem st c j hfind).1
  | step c i l2 hfind _ _ ih =>
    intro j hj
    rcases List.mem_cons.mp hj with h1 | h1
    · subst h1
      exact (findImage_mem st c j hfind).1
    · exact ih j h1

theorem LinkChain_sub (st : ImageStore) :
    ∀ {cur l}, LinkChain st cur l → ∀ img ∈ l, img ∈ st := by
  intro cur l h
  induction h with
  | single c i hfind =>
    intro j hj
    have hji : j = i := List.mem_singleton.mp hj
    subst hji
    exact (findImage_mem st c j hfind).1
  | step c i l2 hfind _ ih =>
    intro j hj
    rcases List.mem_cons.mp hj with h1 | h1
    · subst h1
      exact (findImage_mem st c j hfind).1
    · exact ih j h1

theorem chain_length_le (st : ImageStore) (l : List StateImage)
    (hnd : (l.map StateImage.sid).Nodup) (hsub : ∀ img ∈ l, img ∈ st) :
    l.length ≤ st.length := by
  have h := nodup_length_le hnd (by
    intro s hs
    obtain ⟨i, hi, rfl⟩ := List.mem_map.mp hs
    exact List.mem_map_of_mem _ (hsub i hi))
  simpa using h

/-- Claim C7: the chain walk from HEAD always terminates (the fuel
`collectChain` supplies is never exhausted); it fails with the not-found
error when the target has no state image; on a cycle-free parent chain it
returns the path `[HEAD, ..., target]` when the target is an ancestor of
HEAD; it fails with the unreachable error when the parent chain reaches a
root without encountering the target; and it fails with the corrupt-chain
error when the parent chain loops back onto an already-walked image id. -/
theorem chain_walk_taxonomy :
    (∀ (st : ImageStore) (head eid : String), walkTo st head eid ≠ .outOfFuel)
    ∧ (∀ (st : ImageStore) (head eid : String),
        findImageByEvent st eid = none → walkTo st head eid = .errTargetMissing eid)
    ∧ (∀ (st : ImageStore) (head eid : String) (timg : StateImage) (l : List StateImage),
        findImageByEvent st eid = some timg → ChainTo st timg.sid head l →
        (l.map StateImage.sid).Nodup → "" ∉ l.map StateImage.sid →
        walkTo st head eid = .ok l)
    ∧ (∀ (st : ImageStore) (head eid : String) (timg : StateImage) (l : List StateImage),
        findImageByEvent st eid = some timg → RootChain st head l →
        timg.sid ∉ l.map StateImage.sid →
        (l.map StateImage.sid).Nodup → "" ∉ l.map StateImage.sid →
        walkTo st head eid = .errUnreachable)
    ∧ (∀ (st : ImageStore) (head eid : String) (timg lst : StateImage)
          (l : List StateImage),
        findImageByEvent st eid = some timg → LinkChain st head l →
        l.getLast? = some lst → timg.sid ∉ l.map StateImage.sid →
        (l.map StateImage.sid).Nodup → "" ∉ l.map StateImage.sid →
        parentKey lst ∈ l.map StateImage.sid →
        walkTo st head eid = .errCorrupt) := by
  refine ⟨?_, ?_, ?_, ?_, ?_⟩
  · intro st head eid
    rw [walkTo]
    rcases h : findImageByEvent st eid with _ | timg
    · simp
    · exact walkAux_ne_outOfFuel st timg.sid (st.length + 1) [] [] head
        (by simp) (by simp) (by simp)
  · intro st head eid h
    simp [walkTo, h]
  · intro st head eid timg l hfind hchain hnd hne
    simp only [walkTo, hfind]
    have hlen : l.length ≤ st.length :=
      chain_length_le st l hnd (ChainTo_sub st timg.sid hchain)
    have h := walkAux_ok st timg.sid hchain (st.length + 1) [] [] hnd hne
      (by simp) (by omega)
    simpa [collectChain] using h
  · intro st head eid timg l hfind hchain htgt hnd hne
    simp only [walkTo, hfind]
    have hlen : l.length ≤ st.length :=
      chain_length_le st l hnd (RootChain_sub st hchain)
    have h := walkAux_unreachable st timg.sid hchain (st.length + 1) [] [] htgt hnd hne
      (by simp) (by omega)
    simpa [collectChain] using h
  · intro st head eid timg lst l hfind hchain hlst htgt hnd hne hcyc
    simp only [walkTo, hfind]
    have hlen : l.length ≤ st.length :=
      chain_length_le st l hnd (LinkChain_sub st hchain)
    have h := walkAux_corrupt st timg.sid hchain (st.length + 1) [] [] lst hlst htgt hnd hne
      (by simp) (by simp) (Or.inl hcyc) (by omega)
    simpa [collectChain] using h

/-- Witness instantiating every hypothesis of `chain_walk_taxonomy` at
concrete image stores: a two-image ancestor chain, an empty store, an
abandoned branch, and a synthetically cycled chain. -/
theorem chain_walk_taxonomy_witness :
    walkTo [⟨"s1", "e1", none⟩, ⟨"s2", "e2", some "s1"⟩] "s2" "e1" =
        .ok [⟨"s2", "e2", some "s1"⟩, ⟨"s1", "e1", none⟩]
      ∧ walkTo [] "h" "e" = .errTargetMissing "e"
      ∧ walkTo [⟨"r", "er", none⟩, ⟨"a", "ea", some "r"⟩, ⟨"b", "eb", some "r"⟩] "a" "eb" =
          .errUnreachable
      ∧ walkTo [⟨"x", "ex", some "y"⟩, ⟨"y", "ey", some "x"⟩, ⟨"z", "ez", none⟩] "x" "ez" =
          .errCorrupt := by
  refine ⟨?_, ?_, ?_, ?_⟩
  · exact chain_walk_taxonomy.2.2.1 _ _ _ ⟨"s1", "e1", none⟩ _ (by decide)
      (ChainTo.step _ _ _ (by decide) (by decide)
        (ChainTo.base _ _ (by decide) rfl))
      (by decide) (by decide)
  · exact chain_walk_taxonomy.2.1 _ _ _ rfl
  · exact chain_walk_taxonomy.2.2.2.1 _ _ _ ⟨"b", "eb", some "r"⟩
      [⟨"a", "ea", some "r"⟩, ⟨"r", "er", none⟩] (by decide)
      (RootChain.step "a" ⟨"a", "ea", some "r"⟩ [⟨"r", "er", none⟩] (by decide) (by decide)
        (RootChain.base "r" ⟨"r", "er", none⟩ (by decide) (by decide)))
      (by decide) (by decide) (by decide)
  · exact chain_walk_taxonomy.2.2.2.2 _ _ _ ⟨"z", "ez", none⟩ ⟨"y", "ey", some "x"⟩
      [⟨"x", "ex", some "y"⟩, ⟨"y", "ey", some "x"⟩] (by decide)
      (LinkChain.step "x" ⟨"x", "ex", some "y"⟩ [⟨"y", "ey", some "x"⟩] (by decide)
        (LinkChain.single "y" ⟨"y", "ey", some "x"⟩ (by decide)))
      (by decide) (by decide) (by decide) (by decide) (by decide)

/-! ### Rollback of change events (src/state.py lines 330-508)

The rollback engine touches real SQL tables, the `etl_change_events`
table, the `etl_row_changes` ledger and the state images.  A SQL table is
modelled by its declared column list plus its rows; a statement that
references a missing table or column errors (`Option.none`), matching the
`try/except` structure of the source.  The append-only ledger list is kept
in chronological order, so the `ORDER BY created_at DESC` of the rollback
query is its reverse. -/

/-- Python `str.upper()` (src/state.py line 378 applies it to the op). -/
def pyUpper (s : String) : String :=
  String.mk (s.data.map Char.toUpper)

/-- A SQL data table: declared columns and current rows. -/
structure Table where
  cols : List String
  rows : List Row
deriving DecidableEq, Repr

/-- The database of data tables, keyed by table name. -/
abbrev TableStore := List (String × Table)

/-- Table lookup: a statement on an absent table errors. -/
def tget (T : TableStore) (name : String) : Option Table :=
  match T with
  | [] => none
  | kv :: rest => if kv.1 == name then some kv.2 else tget rest name

/-- Replace the named table's contents (identity when the name is absent). -/
def tset (T : TableStore) (name : String) (t : Table) : TableStore :=
  match T with
  | [] => []
  | kv :: rest => if kv.1 == name then (kv.1, t) :: rest else kv :: tset rest name t

/-- SQL text comparison `{pk_col}::text = :v`: `NULL::text` is `NULL`, which
compares unequal to every text. -/
def sqlTextEq : Value → String → Bool
  | .null, _ => false
  | .str a, s => a == s
  | .int n, s => toString n == s

/-- SQL parameter equality `{col} = :v`: `NULL` is never equal. -/
def sqlEq : Value → Value → Bool
  | .null, _ => false
  | _, .null => false
  | a, b => a == b

/-- `DELETE FROM {table} WHERE {pk_col}::text = :v` (src/state.py lines
385-388): errors when the table or the column does not exist, otherwise
removes every row whose column renders to the given text. -/
def sqlDelete (T : TableStore) (tname col v : String) : Option TableStore :=
  match tget T tname with
  | none => none
  | some t =>
      if col ∈ t.cols then
        some (tset T tname
          { t with rows := t.rows.filter fun r => !(sqlTextEq (rget r col) v) })
      else none

/-- `UPDATE {table} SET c = :c, ... WHERE {wc} = :wv` with every parameter
taken from the before-image (src/state.py lines 409-414): errors when the
table or any referenced column is missing, otherwise overwrites the listed
columns of every matching row. -/
def sqlUpdateOpt (T : TableStore) (tname wc : String) (b : Row) (cols : List String) :
    Option TableStore :=
  match tget T tname with
  | none => none
  | some t =>
      if wc ∈ t.cols ∧ ∀ c ∈ cols, c ∈ t.cols then
        some (tset T tname
          { t with rows := t.rows.map fun r =>
              if sqlEq (rget r wc) (rget b wc)
              then cols.map (fun c => (c, rget b c)) ++ r
              else r })
      else none

/-- The fixed primary-key candidate list of src/state.py lines 383 and 398. -/
def pkCandidates : List String := ["order_id", "transaction_id", "id"]

/-- The state of the single `engine.begin()` transaction every statement of
`rollback_change_event` runs in (src/state.py line 341).  On PostgreSQL (the
only backend, see src/db.py) the first failing statement aborts the
transaction: every later statement of the same transaction raises until the
transaction is rolled back.  `aborted` records that poisoning. -/
structure Txn where
  tables : TableStore
  aborted : Bool
deriving DecidableEq, Repr

/-- One `DELETE` attempt inside the rollback transaction: in an aborted
transaction the statement raises without touching anything (the raise is
caught by the candidate loop); otherwise a failing statement (missing table
or column) aborts the transaction, and a successful one deletes the
matching rows.  The Bool reports success (the source's `break`). -/
def execDelete (tx : Txn) (tname col v : String) : Txn × Bool :=
  if tx.aborted then (tx, false)
  else
    match sqlDelete tx.tables tname col v with
    | some T2 => (⟨T2, false⟩, true)
    | none => (⟨tx.tables, true⟩, false)

/-- The `for pk_col in (...)` loop of src/state.py lines 383-391: try each
candidate column, `break` on the first `DELETE` that does not raise.  Once
one candidate has failed the transaction is aborted, so every later
candidate raises too (caught, `continue`): after a first failure no
candidate can succeed any more. -/
def tryDeleteGo (tx : Txn) (tname v : String) : List String → Txn
  | [] => tx
  | c :: rest =>
      let res := execDelete tx tname c v
      if res.2 then res.1 else tryDeleteGo res.1 tname v rest

/-- One `UPDATE` attempt inside the rollback transaction (its raise is
swallowed by the `try/except: pass` of src/state.py lines 413-416, but a
failure still aborts the shared transaction). -/
def execUpdate (tx : Txn) (tname wc : String) (b : Row) (cols : List String) : Txn :=
  if tx.aborted then tx
  else
    match sqlUpdateOpt tx.tables tname wc b cols with
    | some T2 => ⟨T2, false⟩
    | none => ⟨tx.tables, true⟩

/-- The inverse operation applied for one ledger row (src/state.py lines
375-416): `INSERT` → delete by the candidate primary-key columns, `UPDATE`
→ restore the before-image (skipped in pure Python, with no statement
issued, when the before-image is empty, no candidate column occurs in it,
or it holds nothing besides the key).  Any other op does nothing.  Failing
statements abort the shared transaction through `execDelete`/`execUpdate`. -/
def invertRowChange (tx : Txn) (rc : RowChange) : Txn :=
  let op := pyUpper rc.op
  if op = "INSERT" then
    tryDeleteGo tx rc.tableName rc.pk pkCandidates
  else if op = "UPDATE" then
    let b := rc.before.getD []
    if b.isEmpty then tx
    else
      match pkCandidates.find? (fun c => rmem b c) with
      | none => tx
      | some wc =>
          let cols := (rkeys b).filter (fun c => !(c == wc))
          if cols.isEmpty then tx
          else execUpdate tx rc.tableName wc b cols
  else tx

/-- The rollback query of src/state.py lines 362-373: the applied row
changes of the event, newest first (the ledger list is chronological, so
`ORDER BY created_at DESC` reverses it). -/
def changesNewestFirst (ledger : List RowChange) (eid : String) : List RowChange :=
  (ledger.filter fun rc => rc.applied && rc.eventId == eid).reverse

/-- A record of the `etl_change_events` table (timestamps not modelled). -/
structure ChangeEvent where
  id : String
  actor : String
  sourceName : String
  fileName : String
  status : String
  notes : String
deriving DecidableEq, Repr

/-- The full database state the rollback engine touches, together with the
fresh-identifier supply modelling `uuid.uuid4()`. -/
structure World where
  tables : TableStore
  events : List ChangeEvent
  rowChanges : List RowChange
  images : ImageStore
  head : Option String
  fresh : Nat
deriving DecidableEq, Repr

/-- The fresh-identifier supply: `freshId n` is the `n`-th identifier
`uuid.uuid4()` hands out (injective by length). -/
def freshId (n : Nat) : String :=
  "rb-" ++ String.mk (List.replicate n 'x')

/-- `create_state_image` (src/state.py lines 270-323): reuse the image of
an already-seen change event (moving HEAD to it), otherwise insert a fresh
image whose parent is the current HEAD, re-read it by change event and move
HEAD to it. -/
def createStateImage (w : World) (eid : String) : World :=
  match findImageByEvent w.images eid with
  | some existing => { w with head := some existing.sid }
  | none =>
      let sid := freshId w.fresh
      let img : StateImage := ⟨sid, eid, w.head⟩
      let images2 := w.images ++ [img]
      let w2 : World := { w with images := images2, fresh := w.fresh + 1 }
      match findImageByEvent images2 eid with
      | some created => { w2 with head := some created.sid }
      | none => w2

/-- `rollback_change_event` (src/state.py lines 330-439): inside one
`engine.begin()` transaction it inserts the RUNNING rollback event, reads
the applied row changes of the target event newest first, inverts them, and
marks the rollback event SUCCESS.  If any inverse statement failed the
transaction is aborted, so that closing status `UPDATE` raises: the context
manager rolls everything back — nothing is committed, not even the RUNNING
event — and the exception propagates (`Except.error`).  Otherwise the
transaction commits and HEAD advances through `create_state_image` (run in
its own transactions).  Returns the new world and the rollback event id. -/
def rollbackChangeEvent (w : World) (eid actor : String) : Except Unit (World × String) :=
  let rid := freshId w.fresh
  let ev : ChangeEvent :=
    ⟨rid, actor, "rollback", "rollback:" ++ eid, "RUNNING", "Rollback of " ++ eid⟩
  let events1 := w.events ++ [ev]
  let rows := changesNewestFirst w.rowChanges eid
  let tx := rows.foldl invertRowChange ⟨w.tables, false⟩
  if tx.aborted then .error ()
  else
    let events2 :=
      events1.map fun e => if e.id == rid then { e with status := "SUCCESS" } else e
    let w1 : World :=
      { w with tables := tx.tables, events := events2, fresh := w.fresh + 1 }
    .ok (createStateImage w1 rid, rid)

/-- The failure modes of `rollback_to_point_in_time` (each a raise in the
source: the `RuntimeError`s, the database error of a failed per-event
rollback — carrying the committed database state at the moment of the
raise — plus the fuel marker of the chain walk). -/
inductive RollbackError where
  | noHead
  | targetMissing (eid : String)
  | imageMissing (sid : String)
  | unreachable
  | corrupt
  | statementFailed (dbState : World)
  | outOfFuel
deriving DecidableEq, Repr

/-- The loop body of src/state.py lines 492-500: skip images without a
change event id, otherwise roll the event back, append the returned
rollback event id when truthy, and count.  A raising `rollback_change_event`
is not caught: it ends the loop with the database left at the state the
already-committed per-event rollbacks produced. -/
def rollbackStep (actor : String)
    (acc : Except RollbackError (World × Nat × List String)) (img : StateImage) :
    Except RollbackError (World × Nat × List String) :=
  match acc with
  | .error e => .error e
  | .ok (w, rolled, ids) =>
      if img.eventId = "" then .ok (w, rolled, ids)
      else
        match rollbackChangeEvent w img.eventId actor with
        | .error _ => .error (.statementFailed w)
        | .ok (w2, rid) =>
            .ok (w2, rolled + 1, if rid = "" then ids else ids ++ [rid])

/-- The result dictionary of `rollback_to_point_in_time` (the free-text
message is not modelled). -/
structure RollbackResult where
  status : String
  targetEventId : String
  rolledBackCount : Nat
  rollbackEventIds : List String
deriving DecidableEq, Repr

/-- `rollback_to_point_in_time` (src/state.py lines 446-508): resolve HEAD,
resolve the target image by change event and walk the chain (`walkTo`);
a singleton chain is a NO_OP, otherwise every chain element but the last is
rolled back in HEAD-to-target order, raising mid-loop if a per-event
rollback raises. -/
def rollbackToPointInTime (w : World) (targetEid actor : String) :
    Except RollbackError (World × RollbackResult) :=
  match w.head with
  | none => .error .noHead
  | some headSid =>
      match walkTo w.images headSid targetEid with
      | .errTargetMissing e => .error (.targetMissing e)
      | .errImageMissing s => .error (.imageMissing s)
      | .errUnreachable => .error .unreachable
      | .errCorrupt => .error .corrupt
      | .outOfFuel => .error .outOfFuel
      | .ok chain =>
          if chain.length = 1 then
            .ok (w, ⟨"NO_OP", targetEid, 0, []⟩)
          else
            match chain.dropLast.foldl (rollbackStep actor) (.ok (w, 0, [])) with
            | .error e => .error e
            | .ok (w2, rolled, ids) => .ok (w2, ⟨"SUCCESS", targetEid, rolled, ids⟩)

/-- The rollback event `rollback_change_event` leaves behind for a target
event: RUNNING at insertion, SUCCESS once the inversions ran. -/
def rbEvent (rid eid actor : String) : ChangeEvent :=
  ⟨rid, actor, "rollback", "rollback:" ++ eid, "SUCCESS", "Rollback of " ++ eid⟩

/-- The rollback event ids a run starting at fresh counter `n` hands out,
one per rolled-back image (each rollback consumes two fresh ids: the event
and its state image). -/
def rbIdsFrom (n : Nat) : List StateImage → List String
  | [] => []
  | _ :: rest => freshId n :: rbIdsFrom (n + 2) rest

/-- The rollback events a run starting at fresh counter `n` appends, one
per rolled-back image, in rollback order. -/
def rbEventsFrom (n : Nat) (actor : String) : List StateImage → List ChangeEvent
  | [] => []
  | img :: rest => rbEvent (freshId n) img.eventId actor :: rbEventsFrom (n + 2) actor rest

/-- No identifier the fresh supply will still hand out is already used as a
change-event id or as the change event of a state image. -/
def FreshWorld (w : World) : Prop :=
  ∀ n, w.fresh ≤ n →
    (∀ e ∈ w.events, e.id ≠ freshId n) ∧ (∀ img ∈ w.images, img.eventId ≠ freshId n)

/-- Every per-event rollback along the run commits: none of the issued
inverse statements fails (decidable, checked by running the engine). -/
def rbCommits (actor : String) (w : World) : List StateImage → Bool
  | [] => true
  | img :: rest =>
      if img.eventId = "" then rbCommits actor w rest
      else
        match rollbackChangeEvent w img.eventId actor with
        | .error _ => false
        | .ok (w2, _) => rbCommits actor w2 rest

/-- The world a committing `rollback_change_event` leaves behind. -/
def postWorld (w : World) (eid actor : String) : World :=
  { tables := ((changesNewestFirst w.rowChanges eid).foldl invertRowChange
      ⟨w.tables, false⟩).tables,
    events := w.events ++ [rbEvent (freshId w.fresh) eid actor],
    rowChanges := w.rowChanges,
    images := w.images ++ [⟨freshId (w.fresh + 1), freshId w.fresh, w.head⟩],
    head := some (freshId (w.fresh + 1)),
    fresh := w.fresh + 2 }

theorem freshId_length (n : Nat) : (freshId n).length = n + 3 := by
  have h : (freshId n).data = 'r' :: 'b' :: '-' :: List.replicate n 'x' := rfl
  have h2 : (freshId n).length = (freshId n).data.length := rfl
  rw [h2, h]
  simp

theorem freshId_ne_empty (n : Nat) : freshId n ≠ "" := by
  intro h
  have h1 := congrArg String.length h
  rw [freshId_length] at h1
  have h0 : ("" : String).length = 0 := rfl
  omega

theorem short_ne_freshId (s : String) (n : Nat) (h : s.length < 3) : s ≠ freshId n := by
  intro he
  rw [he, freshId_length] at h
  omega

theorem freshId_inj {m n : Nat} (h : freshId m = freshId n) : m = n := by
  have h1 := congrArg String.length h
  rw [freshId_length, freshId_length] at h1
  omega

theorem findImageByEvent_none_of (st : ImageStore) (eid : String)
    (h : ∀ img ∈ st, img.eventId ≠ eid) : findImageByEvent st eid = none := by
  induction st with
  | nil => rfl
  | cons i rest ih =>
      have h1 : ¬(i.eventId == eid) = true := by
        simp only [beq_iff_eq]
        exact h i (List.mem_cons_self _ _)
      rw [findImageByEvent, if_neg h1]
      exact ih fun img hm => h img (List.mem_cons_of_mem _ hm)

theorem findImageByEvent_append_none (l1 l2 : ImageStore) (eid : String)
    (h : findImageByEvent l1 eid = none) :
    findImageByEvent (l1 ++ l2) eid = findImageByEvent l2 eid := by
  induction l1 with
  | nil => rfl
  | cons i rest ih =>
      rw [findImageByEvent] at h
      by_cases hc : (i.eventId == eid) = true
      · rw [if_pos hc] at h
        cases h
      · rw [if_neg hc] at h
        rw [List.cons_append, findImageByEvent, if_neg hc]
        exact ih h

theorem map_success_id (es : List ChangeEvent) (rid : String)
    (h : ∀ e ∈ es, e.id ≠ rid) :
    es.map (fun e => if e.id == rid then { e with status := "SUCCESS" } else e) = es := by
  induction es with
  | nil => rfl
  | cons e rest ih =>
      have h1 : ¬(e.id == rid) = true := by
        simp only [beq_iff_eq]
        exact h e (List.mem_cons_self _ _)
      simp only [List.map_cons, if_neg h1]
      rw [ih fun x hm => h x (List.mem_cons_of_mem _ hm)]

/-- Full characterisation of one `rollback_change_event` call on a world in
which the fresh supply is really fresh. -/
theorem postWorld_events (w : World) (eid actor : String) :
    (postWorld w eid actor).events = w.events ++ [rbEvent (freshId w.fresh) eid actor] := rfl

theorem postWorld_rowChanges (w : World) (eid actor : String) :
    (postWorld w eid actor).rowChanges = w.rowChanges := rfl

theorem postWorld_fresh (w : World) (eid actor : String) :
    (postWorld w eid actor).fresh = w.fresh + 2 := rfl

/-- A per-event rollback whose transaction was aborted by a failed inverse
statement raises: the closing status update fails and nothing commits. -/
theorem rollbackChangeEvent_fail (w : World) (eid actor : String)
    (hab : ((changesNewestFirst w.rowChanges eid).foldl invertRowChange
      ⟨w.tables, false⟩).aborted = true) :
    rollbackChangeEvent w eid actor = .error () := by
  simp [rollbackChangeEvent, hab]

/-- Full characterisation of one committing `rollback_change_event` call on
a world where the fresh supply is really fresh and no inverse statement
fails. -/
theorem rollbackChangeEvent_spec (w : World) (eid actor : String) (hf : FreshWorld w)
    (habort : ((changesNewestFirst w.rowChanges eid).foldl invertRowChange
      ⟨w.tables, false⟩).aborted = false) :
    rollbackChangeEvent w eid actor = .ok (postWorld w eid actor, freshId w.fresh) := by
  have h1 : ∀ e ∈ w.events, e.id ≠ freshId w.fresh := (hf w.fresh le_rfl).1
  have h2 : ∀ img ∈ w.images, img.eventId ≠ freshId w.fresh := (hf w.fresh le_rfl).2
  have hmap : (w.events ++
        [(⟨freshId w.fresh, actor, "rollback", "rollback:" ++ eid, "RUNNING",
            "Rollback of " ++ eid⟩ : ChangeEvent)]).map
        (fun e => if e.id == freshId w.fresh then { e with status := "SUCCESS" } else e)
      = w.events ++ [rbEvent (freshId w.fresh) eid actor] := by
    rw [List.map_append, map_success_id w.events (freshId w.fresh) h1]
    simp [rbEvent]
  have hnone : findImageByEvent w.images (freshId w.fresh) = none :=
    findImageByEvent_none_of w.images (freshId w.fresh) h2
  simp only [rollbackChangeEvent, createStateImage, hmap, hnone, habort,
    Bool.false_eq_true, if_false]
  rw [findImageByEvent_append_none w.images _ _ hnone]
  simp only [findImageByEvent, beq_self_eq_true, if_true]
  rfl

/-- A committing rollback call preserves freshness of the supply. -/
theorem freshWorld_post (w : World) (eid actor : String) (hf : FreshWorld w) :
    FreshWorld (postWorld w eid actor) := by
  intro n hn
  have hn2 : w.fresh + 2 ≤ n := hn
  refine ⟨?_, ?_⟩
  · intro e he
    have he2 : e ∈ w.events ++ [rbEvent (freshId w.fresh) eid actor] := he
    rcases List.mem_append.mp he2 with h | h
    · exact (hf n (by omega)).1 e h
    · have heq : e = rbEvent (freshId w.fresh) eid actor := List.mem_singleton.mp h
      subst heq
      intro hc
      have : w.fresh = n := freshId_inj hc
      omega
  · intro img hi
    have hi2 : img ∈ w.images ++
        [(⟨freshId (w.fresh + 1), freshId w.fresh, w.head⟩ : StateImage)] := hi
    rcases List.mem_append.mp hi2 with h | h
    · exact (hf n (by omega)).2 img h
    · have heq : img = ⟨freshId (w.fresh + 1), freshId w.fresh, w.head⟩ :=
        List.mem_singleton.mp h
      subst heq
      intro hc
      have : w.fresh = n := freshId_inj hc
      omega

/-- Invariant of the rollback loop of `rollback_to_point_in_time` over any
run of images with non-empty change events along which every per-event
rollback commits. -/
theorem rollbackFold_spec (actor : String) (l : List StateImage) :
    ∀ (w : World) (rolled : Nat) (ids : List String), FreshWorld w →
      (∀ img ∈ l, img.eventId ≠ "") →
      rbCommits actor w l = true →
      ∃ w2 : World,
        l.foldl (rollbackStep actor) (.ok (w, rolled, ids)) =
            .ok (w2, rolled + l.length, ids ++ rbIdsFrom w.fresh l)
          ∧ w2.events = w.events ++ rbEventsFrom w.fresh actor l
          ∧ w2.rowChanges = w.rowChanges
          ∧ w2.fresh = w.fresh + 2 * l.length
          ∧ FreshWorld w2 := by
  induction l with
  | nil =>
      intro w rolled ids hf _ _
      exact ⟨w, by simp [rbIdsFrom], by simp [rbEventsFrom], rfl, by simp, hf⟩
  | cons img rest ih =>
      intro w rolled ids hf hne hcommit
      have hid : img.eventId ≠ "" := hne img (List.mem_cons_self _ _)
      cases hab : ((changesNewestFirst w.rowChanges img.eventId).foldl invertRowChange
          ⟨w.tables, false⟩).aborted with
      | true =>
          exfalso
          simp only [rbCommits, if_neg hid,
            rollbackChangeEvent_fail w img.eventId actor hab] at hcommit
          exact Bool.false_ne_true hcommit
      | false =>
          have hspec := rollbackChangeEvent_spec w img.eventId actor hf hab
          simp only [rbCommits, if_neg hid, hspec] at hcommit
          have hstep : rollbackStep actor (.ok (w, rolled, ids)) img =
              .ok (postWorld w img.eventId actor, rolled + 1, ids ++ [freshId w.fresh]) := by
            simp only [rollbackStep, if_neg hid, hspec, if_neg (freshId_ne_empty w.fresh)]
          obtain ⟨w2, heq, hev, hrc, hfr, hfw⟩ :=
            ih (postWorld w img.eventId actor) (rolled + 1) (ids ++ [freshId w.fresh])
              (freshWorld_post w img.eventId actor hf)
              (fun i hm => hne i (List.mem_cons_of_mem _ hm)) hcommit
          simp only [postWorld_events, postWorld_rowChanges, postWorld_fresh]
            at heq hev hrc hfr
          refine ⟨w2, ?_, ?_, ?_, ?_, hfw⟩
          · rw [List.foldl_cons, hstep, heq]
            simp only [Except.ok.injEq, Prod.mk.injEq, List.length_cons, rbIdsFrom,
              List.append_assoc, List.singleton_append]
            exact ⟨trivial, by omega, trivial⟩
          · rw [hev, rbEventsFrom, List.append_assoc, List.singleton_append]
          · exact hrc
          · rw [hfr, List.length_cons]
            omega

/-- Once some per-event rollback has raised, the loop is over: the fold
propagates the error unchanged. -/
theorem rollbackStep_error (actor : String) (e : RollbackError) (l : List StateImage) :
    l.foldl (rollbackStep actor) (.error e) = .error e := by
  induction l with
  | nil => rfl
  | cons img rest ih =>
      rw [List.foldl_cons]
      exact ih

/-- When some per-event rollback along the run raises, the point-in-time
loop ends with that raise, carrying the database state the already
committed per-event rollbacks produced. -/
theorem rollbackFold_fail (actor : String) (l : List StateImage) :
    ∀ (w : World) (rolled : Nat) (ids : List String),
      (∀ img ∈ l, img.eventId ≠ "") →
      rbCommits actor w l = false →
      ∃ wf : World,
        l.foldl (rollbackStep actor) (.ok (w, rolled, ids)) =
          .error (.statementFailed wf) := by
  induction l with
  | nil =>
      intro w rolled ids _ hc
      simp [rbCommits] at hc
  | cons img rest ih =>
      intro w rolled ids hne hc
      have hid : img.eventId ≠ "" := hne img (List.mem_cons_self _ _)
      cases hrb : rollbackChangeEvent w img.eventId actor with
      | error e =>
          refine ⟨w, ?_⟩
          have hstep : rollbackStep actor (.ok (w, rolled, ids)) img =
              .error (.statementFailed w) := by
            simp only [rollbackStep, if_neg hid, hrb]
          rw [List.foldl_cons, hstep, rollbackStep_error]
      | ok val =>
          obtain ⟨w2, rid⟩ := val
          simp only [rbCommits, if_neg hid, hrb] at hc
          have hstep : rollbackStep actor (.ok (w, rolled, ids)) img =
              .ok (w2, rolled + 1, if rid = "" then ids else ids ++ [rid]) := by
            simp only [rollbackStep, if_neg hid, hrb]
          obtain ⟨wf, hf⟩ := ih w2 (rolled + 1) (if rid = "" then ids else ids ++ [rid])
            (fun i hm => hne i (List.mem_cons_of_mem _ hm)) hc
          exact ⟨wf, by rw [List.foldl_cons, hstep, hf]⟩

/-- An INSERT row change whose table carries the first candidate key column
is inverted in a live transaction by deleting every row matching the logged
primary-key text; the transaction stays healthy. -/
theorem invertRowChange_insert (tx : Txn) (rc : RowChange) (t : Table)
    (hlive : tx.aborted = false)
    (hop : pyUpper rc.op = "INSERT") (ht : tget tx.tables rc.tableName = some t)
    (hcol : "order_id" ∈ t.cols) :
    invertRowChange tx rc =
      ⟨tset tx.tables rc.tableName
        { t with rows := t.rows.filter fun r => !(sqlTextEq (rget r "order_id") rc.pk) },
       false⟩ := by
  have h1 : invertRowChange tx rc = tryDeleteGo tx rc.tableName rc.pk pkCandidates := by
    simp [invertRowChange, hop]
  have hd : sqlDelete tx.tables rc.tableName "order_id" rc.pk =
      some (tset tx.tables rc.tableName
        { t with rows := t.rows.filter fun r => !(sqlTextEq (rget r "order_id") rc.pk) }) := by
    simp [sqlDelete, ht, hcol]
  rw [h1, pkCandidates]
  simp [tryDeleteGo, execDelete, hlive, hd]

/-- An INSERT row change whose table lacks the first candidate key column
aborts the shared transaction: the first candidate DELETE raises, poisoning
the transaction, so every later candidate raises too (caught, continue) and
nothing is deleted. -/
theorem invertRowChange_insert_abort (tx : Txn) (rc : RowChange) (t : Table)
    (hlive : tx.aborted = false)
    (hop : pyUpper rc.op = "INSERT") (ht : tget tx.tables rc.tableName = some t)
    (hcol : "order_id" ∉ t.cols) :
    invertRowChange tx rc = ⟨tx.tables, true⟩ := by
  have h1 : invertRowChange tx rc = tryDeleteGo tx rc.tableName rc.pk pkCandidates := by
    simp [invertRowChange, hop]
  have hd : sqlDelete tx.tables rc.tableName "order_id" rc.pk = none := by
    simp [sqlDelete, ht, hcol]
  rw [h1, pkCandidates]
  simp [tryDeleteGo, execDelete, hlive, hd]

/-- An UPDATE row change with a non-trivial before-image carrying a candidate
key column is inverted in a live transaction by overwriting the non-key
before-image columns on every row whose key matches the before-image key. -/
theorem invertRowChange_update (tx : Txn) (rc : RowChange) (t : Table) (b : Row)
    (wc : String)
    (hlive : tx.aborted = false)
    (hop : pyUpper rc.op = "UPDATE") (hb : rc.before = some b)
    (hbne : b.isEmpty = false)
    (hwc : pkCandidates.find? (fun c => rmem b c) = some wc)
    (hcols : ((rkeys b).filter fun c => !(c == wc)).isEmpty = false)
    (ht : tget tx.tables rc.tableName = some t)
    (hsub : wc ∈ t.cols ∧ ∀ c ∈ (rkeys b).filter (fun c => !(c == wc)), c ∈ t.cols) :
    invertRowChange tx rc =
      ⟨tset tx.tables rc.tableName
        { t with rows := t.rows.map fun r =>
            (if sqlEq (rget r wc) (rget b wc)
             then ((rkeys b).filter fun c => !(c == wc)).map (fun c => (c, rget b c)) ++ r
             else r) },
       false⟩ := by
  have hne : pyUpper rc.op ≠ "INSERT" := by
    rw [hop]
    decide
  have hup : sqlUpdateOpt tx.tables rc.tableName wc b
        ((rkeys b).filter fun c => !(c == wc)) =
      some (tset tx.tables rc.tableName
        { t with rows := t.rows.map fun r =>
            (if sqlEq (rget r wc) (rget b wc)
             then ((rkeys b).filter fun c => !(c == wc)).map (fun c => (c, rget b c)) ++ r
             else r) }) := by
    simp only [sqlUpdateOpt, ht]
    rw [if_pos hsub]
  simp only [invertRowChange, if_neg hne, hop, if_pos rfl, hb, Option.getD_some, hwc,
    Bool.not_eq_true, hbne, Bool.false_eq_true, if_false, hcols]
  rw [if_neg (by decide : ¬("UPDATE" = "INSERT")), if_pos trivial]
  simp [execUpdate, hlive, hup]

/-- An UPDATE row change whose before-image carries none of the candidate
key columns is skipped in pure Python: no statement is issued, the tables
and the transaction state are untouched and nothing fails. -/
theorem invertRowChange_skip (tx : Txn) (rc : RowChange) (b : Row)
    (hop : pyUpper rc.op = "UPDATE") (hb : rc.before = some b)
    (hwc : pkCandidates.find? (fun c => rmem b c) = none) :
    invertRowChange tx rc = tx := by
  have hne : pyUpper rc.op ≠ "INSERT" := by
    rw [hop]
    decide
  by_cases hbe : b.isEmpty
  · simp [invertRowChange, hne, hop, hb, hbe]
  · simp [invertRowChange, hne, hop, hb, hbe, hwc]

def tExample : Table :=
  ⟨["order_id", "amount"], [[("order_id", Value.int 7), ("amount", Value.int 100)]]⟩

def texStore : TableStore := [("orders", tExample)]

def rcIns : RowChange :=
  ⟨"e9", "orders", "7", "INSERT", [], none, [("order_id", Value.int 7)], true, false, none⟩

def bUpd : Row := [("order_id", Value.int 7), ("amount", Value.int 50)]

def rcUpd : RowChange :=
  ⟨"e9", "orders", "7", "update", ["amount"], some bUpd,
    [("amount", Value.int 100)], true, false, none⟩

def rcSkip : RowChange :=
  ⟨"e9", "orders", "7", "UPDATE", [], some [("foo", Value.int 1)], [], true, false, none⟩

def tUpdExpected : Table :=
  { tExample with rows := tExample.rows.map fun r =>
      (if sqlEq (rget r "order_id") (rget bUpd "order_id")
       then ((rkeys bUpd).filter fun c => !(c == "order_id")).map (fun c => (c, rget bUpd c)) ++ r
       else r) }

def rbW : World :=
  { tables := texStore,
    events := [⟨"e9", "etl", "sales", "f.csv", "SUCCESS", ""⟩],
    rowChanges := [rcIns],
    images := [],
    head := none,
    fresh := 0 }

theorem rbW_fresh : FreshWorld rbW := by
  intro n hn
  refine ⟨?_, ?_⟩
  · intro e he
    have he2 : e ∈ [(⟨"e9", "etl", "sales", "f.csv", "SUCCESS", ""⟩ : ChangeEvent)] := he
    rw [List.mem_singleton] at he2
    subst he2
    exact short_ne_freshId "e9" n (by decide)
  · intro i hi
    cases hi

def budgetTable : Table :=
  ⟨["transaction_id", "amount"],
    [[("transaction_id", Value.str "t1"), ("amount", Value.int 5)]]⟩

def rcBudget : RowChange :=
  ⟨"e2", "stg_budget_transactions", "t1", "INSERT", [], none,
    [("transaction_id", Value.str "t1")], true, false, none⟩

def w8cex : World :=
  { tables := [("stg_budget_transactions", budgetTable)],
    events := [],
    rowChanges := [rcBudget],
    images := [⟨"s2", "e2", some "s1"⟩, ⟨"s1", "e1", none⟩],
    head := some "s2",
    fresh := 0 }

/-- Counterexample to the unconditional reading of claim C9: inverting an
applied INSERT on this repository's own budget staging table (primary key
transaction_id, no order_id column) makes the first candidate DELETE fail.
That failure aborts the single shared transaction, so no later candidate
can succeed, the closing status update raises, and the whole
`rollback_change_event` raises with nothing committed — the row is not
skipped without failing. -/
theorem single_event_rollback_inversion_cex :
    (invertRowChange ⟨[("stg_budget_transactions", budgetTable)], false⟩ rcBudget).aborted
        = true
      ∧ rollbackChangeEvent w8cex "e2" "ops" = .error () := by
  refine ⟨by decide, ?_⟩
  rfl

/-- Claim C9 (amended): `rollback_change_event` reads exactly the applied
row changes of the target event, newest first, and inverts each one inside
one shared transaction: an INSERT is deleted by the logged primary-key text
through the first candidate key column the table carries — a table lacking
that column makes the DELETE fail and abort the transaction — an UPDATE is
overwritten from the stored before-image keyed by the first candidate
column occurring in it, and an UPDATE before-image carrying no candidate
key column is skipped in pure Python, issuing no statement and failing
nothing.  When no issued statement fails the rollback commits as a fresh,
newly-created SUCCESS change event appended to the event history (prior
events and the row-change ledger untouched, HEAD advanced through a fresh
state image); when any issued statement fails the closing status update
raises and the rollback raises with nothing committed. -/
theorem single_event_rollback_inversion :
    (∀ (w : World) (eid actor : String), FreshWorld w →
        ((changesNewestFirst w.rowChanges eid).foldl invertRowChange
            ⟨w.tables, false⟩).aborted = false →
        ∃ w2 : World,
          rollbackChangeEvent w eid actor = .ok (w2, freshId w.fresh)
            ∧ w2.tables =
                (((w.rowChanges.filter fun rc => rc.applied && rc.eventId == eid).reverse).foldl
                  invertRowChange ⟨w.tables, false⟩).tables
            ∧ w2.events = w.events ++ [rbEvent (freshId w.fresh) eid actor]
            ∧ w2.rowChanges = w.rowChanges
            ∧ w2.images = w.images ++ [⟨freshId (w.fresh + 1), freshId w.fresh, w.head⟩]
            ∧ w2.head = some (freshId (w.fresh + 1)))
  ∧ (∀ (w : World) (eid actor : String),
        ((changesNewestFirst w.rowChanges eid).foldl invertRowChange
            ⟨w.tables, false⟩).aborted = true →
        rollbackChangeEvent w eid actor = .error ())
  ∧ (∀ (tx : Txn) (rc : RowChange) (t : Table),
        tx.aborted = false →
        pyUpper rc.op = "INSERT" → tget tx.tables rc.tableName = some t →
        "order_id" ∈ t.cols →
        invertRowChange tx rc =
          ⟨tset tx.tables rc.tableName
            { t with rows := t.rows.filter fun r => !(sqlTextEq (rget r "order_id") rc.pk) },
           false⟩)
  ∧ (∀ (tx : Txn) (rc : RowChange) (t : Table),
        tx.aborted = false →
        pyUpper rc.op = "INSERT" → tget tx.tables rc.tableName = some t →
        "order_id" ∉ t.cols →
        invertRowChange tx rc = ⟨tx.tables, true⟩)
  ∧ (∀ (tx : Txn) (rc : RowChange) (t : Table) (b : Row) (wc : String),
        tx.aborted = false →
        pyUpper rc.op = "UPDATE" → rc.before = some b → b.isEmpty = false →
        pkCandidates.find? (fun c => rmem b c) = some wc →
        ((rkeys b).filter fun c => !(c == wc)).isEmpty = false →
        tget tx.tables rc.tableName = some t →
        wc ∈ t.cols ∧ (∀ c ∈ (rkeys b).filter (fun c => !(c == wc)), c ∈ t.cols) →
        invertRowChange tx rc =
          ⟨tset tx.tables rc.tableName
            { t with rows := t.rows.map fun r =>
                (if sqlEq (rget r wc) (rget b wc)
                 then ((rkeys b).filter fun c => !(c == wc)).map (fun c => (c, rget b c)) ++ r
                 else r) },
           false⟩)
  ∧ (∀ (tx : Txn) (rc : RowChange) (b : Row),
        pyUpper rc.op = "UPDATE" → rc.before = some b →
        pkCandidates.find? (fun c => rmem b c) = none →
        invertRowChange tx rc = tx) := by
  refine ⟨?_, rollbackChangeEvent_fail, invertRowChange_insert,
    invertRowChange_insert_abort, ?_, invertRowChange_skip⟩
  · intro w eid actor hf hab
    exact ⟨postWorld w eid actor, rollbackChangeEvent_spec w eid actor hf hab,
      rfl, rfl, rfl, rfl, rfl⟩
  · intro tx rc t b wc hlive hop hb hbne hwc hcols ht hsub
    exact invertRowChange_update tx rc t b wc hlive hop hb hbne hwc hcols ht hsub

/-- Witness instantiating `single_event_rollback_inversion` on concrete
inputs: a committing rollback of an applied INSERT on a one-row orders
table, an INSERT inversion against the budget staging table (aborts), an
UPDATE with a before-image keyed by order_id, and an UPDATE whose
before-image holds no candidate key column. -/
theorem single_event_rollback_inversion_witness :
    FreshWorld rbW
  ∧ ((changesNewestFirst rbW.rowChanges "e9").foldl invertRowChange
        ⟨rbW.tables, false⟩).aborted = false
  ∧ (∃ w2 : World,
      rollbackChangeEvent rbW "e9" "ops" = .ok (w2, freshId rbW.fresh)
        ∧ w2.tables =
            (((rbW.rowChanges.filter fun rc => rc.applied && rc.eventId == "e9").reverse).foldl
              invertRowChange ⟨rbW.tables, false⟩).tables
        ∧ w2.events = rbW.events ++ [rbEvent (freshId rbW.fresh) "e9" "ops"]
        ∧ w2.rowChanges = rbW.rowChanges
        ∧ w2.images = rbW.images ++ [⟨freshId (rbW.fresh + 1), freshId rbW.fresh, rbW.head⟩]
        ∧ w2.head = some (freshId (rbW.fresh + 1)))
  ∧ invertRowChange ⟨texStore, false⟩ rcIns =
      ⟨tset texStore rcIns.tableName
        { tExample with rows :=
            tExample.rows.filter fun r => !(sqlTextEq (rget r "order_id") rcIns.pk) },
       false⟩
  ∧ invertRowChange ⟨[("stg_budget_transactions", budgetTable)], false⟩ rcBudget =
      ⟨[("stg_budget_transactions", budgetTable)], true⟩
  ∧ invertRowChange ⟨texStore, false⟩ rcUpd =
      ⟨tset texStore rcUpd.tableName tUpdExpected, false⟩
  ∧ invertRowChange ⟨texStore, false⟩ rcSkip = ⟨texStore, false⟩ := by
  refine ⟨rbW_fresh, by decide, ?_, ?_, ?_, ?_, ?_⟩
  · exact single_event_rollback_inversion.1 rbW "e9" "ops" rbW_fresh (by decide)
  · exact single_event_rollback_inversion.2.2.1 ⟨texStore, false⟩ rcIns tExample
      (by decide) (by decide) (by decide) (by decide)
  · exact single_event_rollback_inversion.2.2.2.1
      ⟨[("stg_budget_transactions", budgetTable)], false⟩ rcBudget budgetTable
      (by decide) (by decide) (by decide) (by decide)
  · exact single_event_rollback_inversion.2.2.2.2.1 ⟨texStore, false⟩ rcUpd tExample
      bUpd "order_id" (by decide) (by decide) (by decide) (by decide) (by decide)
      (by decide) (by decide) (by decide)
  · exact single_event_rollback_inversion.2.2.2.2.2 ⟨texStore, false⟩ rcSkip
      [("foo", Value.int 1)] (by decide) (by decide) (by decide)

def noopW : World :=
  { tables := [], events := [], rowChanges := [],
    images := [⟨"s1", "e1", none⟩], head := some "s1", fresh := 0 }

def pitW : World :=
  { tables := [], events := [], rowChanges := [],
    images := [⟨"s2", "e2", some "s1"⟩, ⟨"s1", "e1", none⟩],
    head := some "s2", fresh := 0 }

theorem pitW_fresh : FreshWorld pitW := by
  intro n hn
  refine ⟨?_, ?_⟩
  · intro e he
    cases he
  · intro i hi
    have hi2 : i ∈ [(⟨"s2", "e2", some "s1"⟩ : StateImage), ⟨"s1", "e1", none⟩] := hi
    rcases List.mem_cons.mp hi2 with h | h
    · subst h
      exact short_ne_freshId "e2" n (by decide)
    · have h2 := List.mem_singleton.mp h
      subst h2
      exact short_ne_freshId "e1" n (by decide)

/-- Counterexample to the unconditional reading of claim C8: a two-image
chain whose HEAD event holds an applied INSERT on the budget staging table
(no order_id column).  The chain walk succeeds, yet the point-in-time
rollback raises on its first per-event rollback — nothing is committed and
no count or id list is returned. -/
theorem point_in_time_rollback_cex :
    walkTo w8cex.images "s2" "e1" =
        .ok [⟨"s2", "e2", some "s1"⟩, ⟨"s1", "e1", none⟩]
      ∧ rollbackToPointInTime w8cex "e1" "ops" = .error (.statementFailed w8cex) := by
  refine ⟨by decide, ?_⟩
  rfl

/-- Claim C8 (amended): when the HEAD-to-target chain has length 1 the
point-in-time rollback is a NO_OP that returns count 0 with no rollback
event ids and leaves the world untouched; otherwise, provided every
per-event rollback commits (no inverse statement fails), it rolls back
exactly the change events of the chain elements strictly before the target
(all but the last), in HEAD-to-target order, appending one fresh SUCCESS
rollback change event per rolled-back image and returning their count (the
chain length minus one) together with their ids in rollback order; and when
some per-event rollback fails, the loop raises mid-way instead of returning
a result, leaving the database at the state the already-committed rollbacks
produced. -/
theorem point_in_time_rollback :
    (∀ (w : World) (targetEid actor headSid : String) (img : StateImage),
        w.head = some headSid →
        walkTo w.images headSid targetEid = .ok [img] →
        rollbackToPointInTime w targetEid actor =
          .ok (w, ⟨"NO_OP", targetEid, 0, []⟩))
  ∧ (∀ (w : World) (targetEid actor headSid : String) (l : List StateImage),
        w.head = some headSid →
        walkTo w.images headSid targetEid = .ok l →
        2 ≤ l.length →
        (∀ img ∈ l.dropLast, img.eventId ≠ "") →
        FreshWorld w →
        rbCommits actor w l.dropLast = true →
        ∃ w2 : World,
          rollbackToPointInTime w targetEid actor =
              .ok (w2, ⟨"SUCCESS", targetEid, l.length - 1, rbIdsFrom w.fresh l.dropLast⟩)
            ∧ w2.events = w.events ++ rbEventsFrom w.fresh actor l.dropLast
            ∧ w2.rowChanges = w.rowChanges)
  ∧ (∀ (w : World) (targetEid actor headSid : String) (l : List StateImage),
        w.head = some headSid →
        walkTo w.images headSid targetEid = .ok l →
        2 ≤ l.length →
        (∀ img ∈ l.dropLast, img.eventId ≠ "") →
        rbCommits actor w l.dropLast = false →
        ∃ wf : World,
          rollbackToPointInTime w targetEid actor = .error (.statementFailed wf)) := by
  refine ⟨?_, ?_, ?_⟩
  · intro w targetEid actor headSid img hhead hwalk
    simp [rollbackToPointInTime, hhead, hwalk]
  · intro w targetEid actor headSid l hhead hwalk hlen hne hf hcomm
    obtain ⟨w2, heq, hev, hrc, _, _⟩ :=
      rollbackFold_spec actor l.dropLast w 0 [] hf hne hcomm
    refine ⟨w2, ?_, hev, hrc⟩
    simp only [rollbackToPointInTime, hhead, hwalk]
    rw [if_neg (by omega : ¬ l.length = 1)]
    rw [heq]
    simp [List.length_dropLast]
  · intro w targetEid actor headSid l hhead hwalk hlen hne hcomm
    obtain ⟨wf, hf⟩ := rollbackFold_fail actor l.dropLast w 0 [] hne hcomm
    refine ⟨wf, ?_⟩
    simp only [rollbackToPointInTime, hhead, hwalk]
    rw [if_neg (by omega : ¬ l.length = 1), hf]

/-- Witness instantiating `point_in_time_rollback` on concrete worlds: a
HEAD already at the target (NO_OP), a two-image chain whose single rollback
commits, and a two-image chain whose rollback fails on the budget table. -/
theorem point_in_time_rollback_witness :
    rollbackToPointInTime noopW "e1" "ops" = .ok (noopW, ⟨"NO_OP", "e1", 0, []⟩)
  ∧ FreshWorld pitW
  ∧ rbCommits "ops" pitW [⟨"s2", "e2", some "s1"⟩] = true
  ∧ (∃ w2 : World,
      rollbackToPointInTime pitW "e1" "ops" =
          .ok (w2, ⟨"SUCCESS", "e1",
            [(⟨"s2", "e2", some "s1"⟩ : StateImage), ⟨"s1", "e1", none⟩].length - 1,
            rbIdsFrom pitW.fresh
              [(⟨"s2", "e2", some "s1"⟩ : StateImage), ⟨"s1", "e1", none⟩].dropLast⟩)
        ∧ w2.events = pitW.events ++ rbEventsFrom pitW.fresh "ops"
            [(⟨"s2", "e2", some "s1"⟩ : StateImage), ⟨"s1", "e1", none⟩].dropLast
        ∧ w2.rowChanges = pitW.rowChanges)
  ∧ (∃ wf : World,
      rollbackToPointInTime w8cex "e1" "ops" = .error (.statementFailed wf)) := by
  refine ⟨?_, pitW_fresh, by decide, ?_, ?_⟩
  · exact point_in_time_rollback.1 noopW "e1" "ops" "s1" ⟨"s1", "e1", none⟩ rfl (by decide)
  · exact point_in_time_rollback.2.1 pitW "e1" "ops" "s2"
      [⟨"s2", "e2", some "s1"⟩, ⟨"s1", "e1", none⟩] rfl (by decide) (by decide) (by decide)
      pitW_fresh (by decide)
  · exact point_in_time_rollback.2.2 w8cex "e1" "ops" "s2"
      [⟨"s2", "e2", some "s1"⟩, ⟨"s1", "e1", none⟩] rfl (by decide) (by decide) (by decide)
      (by decide)

end FinanceETL
